import Mathlib

/-!
# ForbidHosts

A shallow embedding of `ForbidHosts.cpp` (the sshd log watcher that adds hosts to
`hosts.deny`) and the verification of its line classifier and host registry.

Conventions of the embedding.

* A C `char` buffer is a `List Char`, one `Char` per byte; index `0` is the address the
  pointer of the buffer holds. A `char *` into the buffer is the offset (a `Nat`) from that
  address. The C string at an offset runs up to the first NUL; bytes after that NUL are
  still part of the buffer (the line buffer of `ReadLine` keeps what earlier lines left
  there). Bytes past the end of the list read as NUL.
* `long unsigned int` is 64 bits wide and `time_t` is a signed 64-bit integer (LP64).
  Unsigned arithmetic is reduced modulo `2 ^ 64`; a value stored in a `time_t` is reduced
  to the two's complement range.
* `AddToDeny` forks a child that appends to the deny file; the embedding records the call
  as the address handed to it, in call order.
* `soft_assert` only writes to syslog and is not part of the state.
* `withIPv4` is the compile-time switch `WITH_IPV4`.
* The clock is a parameter: `now` where `time(0)` is read once, a function of the turn
  where a loop reads it in every turn.
* `int` is 32 bits wide; a result stored in an `int` is reduced to the two's complement
  range.
-/

set_option maxRecDepth 100000

namespace ForbidHosts

/-! ## Machine integers -/

/-- Largest `long unsigned int`. -/
def ULONG_MAX : Nat := 2 ^ 64 - 1

/-- Largest `time_t`. -/
def TIME_MAX : Int := 2 ^ 63 - 1

/-- Smallest `time_t`. -/
def TIME_MIN : Int := -(2 ^ 63)

/-- Reduction of the mathematical result of an unsigned operation to `long unsigned int`. -/
def wrapUL (x : Nat) : Nat := x % 2 ^ 64

/-- Conversion of a `time_t` operand to `long unsigned int`. -/
def toUL (t : Int) : Nat := (t % 2 ^ 64).toNat

/-- Conversion of an integer result to `time_t` (two's complement). -/
def toTime (x : Int) : Int := (x + 2 ^ 63) % 2 ^ 64 - 2 ^ 63

/-! ## Constants -/

def MaxAttempts : Nat := 5

def HostExpire : Int := 5

def FailurePenalty : Nat := 1

/-- The `sizeof` of a string literal: its characters and the terminating NUL. -/
def sizeof (lit : String) : Nat := lit.length + 1

/-! ## C strings -/

/-- The terminator of a C string. -/
def NUL : Char := Char.ofNat 0

/-- The C string that starts at offset `p` of the buffer `mem`. -/
def cstr (mem : List Char) (p : Nat) : List Char :=
  (mem.drop p).takeWhile (fun c => c != NUL)

/-- Index of the first occurrence of `needle` in `hay`. -/
def findSub (needle : List Char) : List Char → Option Nat
  | [] => if needle.isEmpty then some 0 else none
  | c :: cs =>
    if needle.isPrefixOf (c :: cs) then some 0 else (findSub needle cs).map (· + 1)

/-- Index of the first occurrence of the character `c` in `hay`. -/
def findChar (c : Char) : List Char → Option Nat
  | [] => none
  | d :: ds => if d = c then some 0 else (findChar c ds).map (· + 1)

/-- The library call `strstr(mem + p, needle)`: the offset of the first occurrence of `needle`
in the C string at `p`, `none` for a null pointer. -/
def strstr (mem : List Char) (p : Nat) (needle : String) : Option Nat :=
  (findSub needle.toList (cstr mem p)).map (· + p)

/-- The library call `strchr(mem + p, c)` for a character `c` other than NUL. -/
def strchr (mem : List Char) (p : Nat) (c : Char) : Option Nat :=
  (findChar c (cstr mem p)).map (· + p)

/-- The library predicate `isspace` in the C locale. -/
def isspace (c : Char) : Bool := c = ' ' || (9 ≤ c.toNat && c.toNat ≤ 13)

/-- The library predicate `isdigit`. -/
def isdigit (c : Char) : Bool := 48 ≤ c.toNat && c.toNat ≤ 57

/-- Value of a run of decimal digits, most significant first. -/
def digitsValue (ds : List Char) : Nat :=
  ds.foldl (fun acc d => acc * 10 + (d.toNat - 48)) 0

/-- The library call `strtoul(mem + p, 0, 10)`: leading white space is skipped, one sign is
accepted, the longest run of digits is converted; no digits give `0`, a value that does not
fit gives `ULONG_MAX`, and a minus sign negates the value in `long unsigned int`. -/
def strtoul (mem : List Char) (p : Nat) : Nat :=
  let s := (cstr mem p).dropWhile isspace
  let neg : Bool := s.head? = some '-'
  let body := match s with
    | '-' :: r => r
    | '+' :: r => r
    | _ => s
  let v := digitsValue (body.takeWhile isdigit)
  if v > ULONG_MAX then ULONG_MAX
  else if neg then wrapUL (2 ^ 64 - v) else v

/-! ## Data model -/

/-- One tracked host (`struct HostIP`). -/
structure HostIP where
  FirstSeen : Int
  Address : List Char
  Attempts : Nat
  Expire : Int
  Written : Bool
  deriving DecidableEq, Repr

/-- The constructor `HostIP(Date, AuthAddress, InitAttempt, AlreadyWritten)`: the member
initialisers, then the two assignments of the body. -/
def HostIP.construct (Date : Int) (AuthAddress : List Char) (InitAttempt : Nat)
    (AlreadyWritten : Bool) : HostIP :=
  let h0 : HostIP :=
    { FirstSeen := Date, Address := AuthAddress, Attempts := InitAttempt, Expire := 0,
      Written := AlreadyWritten }
  let h1 : HostIP :=
    { h0 with
      Expire := toTime (wrapUL (toUL Date +
        wrapUL (wrapUL (wrapUL (h0.Attempts * FailurePenalty) * toUL HostExpire) * 60))) }
  { h1 with Written := false }

/-- The comparison `Closer`: `lhs` goes before `rhs` when it expires later. -/
def Closer (lhs rhs : HostIP) : Bool := decide (lhs.Expire > rhs.Expire)

/-- The call `sort(Hosts.begin(), Hosts.end(), Closer())`. `std::sort` is not stable: it
leaves the order of entries that `Closer` does not separate (equal `Expire`) unspecified,
and the embedding fixes one such order. What carries over to the program is that the result
is a permutation of the input (`sortHosts_perm`) and is ordered by `Closer`
(`sortHosts_sorted`); the position of an entry among entries of equal `Expire` is a choice
of the embedding only. -/
def sortHosts (Hosts : List HostIP) : List HostIP :=
  Hosts.insertionSort (fun a b => Closer b a = false)

/-! ## Line classifier -/

/-- The function `ExtractData(Begin, &Address, AddressLength)`: `some (Address, AddressLength)` when it
returns `true`, `none` when it returns `false` (the out-parameters are then untouched). -/
def ExtractData (withIPv4 : Bool) (mem : List Char) (Begin : Nat) : Option (Nat × Nat) :=
  match strstr mem Begin " for " with
  | none => none
  | some User =>
    let User := User + sizeof " for "
    match strstr mem User " from " with
    | none => none
    | some Host =>
      let Host := Host + (sizeof " from " - 1)
      match strstr mem Host " port " with
      | none => none
      | some End =>
        let noColon : Bool :=
          match strchr mem Host ':' with
          | none => true
          | some Colon => decide (Colon > End)
        let noDot : Bool :=
          match strchr mem Host '.' with
          | none => true
          | some Dot => decide (Dot > End)
        if withIPv4 then
          if noColon && noDot then none else some (Host, End - Host)
        else
          if noColon then none else some (Host, End - Host)

/-- The function `IsMessageRepeated(Line, &Address, AddressLength, Attempts)`: on `true` the three
out-parameters `(Address, AddressLength, Attempts)`. On `false` the caller `ReadLine`
overwrites `Attempts` or moves to the next line, so only the outcome is kept. -/
def IsMessageRepeated (withIPv4 : Bool) (Line : List Char) : Option (Nat × Nat × Nat) :=
  match strstr Line 0 " sshd[" with
  | none => none
  | some SSHd =>
    match strstr Line SSHd ": message repeated " with
    | none => none
    | some Repeated =>
      match strstr Line Repeated " times: [ Failed " with
      | none => none
      | some Method =>
        let Method := Method + sizeof " times: [ Failed "
        let Repeated := Repeated + (sizeof ": message repeated " - 1)
        let Attempts := strtoul Line Repeated
        match ExtractData withIPv4 Line Method with
        | none => none
        | some (Address, AddressLength) => some (Address, AddressLength, Attempts)

/-- The function `IsValidLine(Line, &Address, AddressLength, Attempts)`: on `true` the three
out-parameters `(Address, AddressLength, Attempts)`. -/
def IsValidLine (withIPv4 : Bool) (Line : List Char) : Option (Nat × Nat × Nat) :=
  match strstr Line 0 " sshd[" with
  | none => none
  | some SSHd =>
    match strstr Line SSHd ": Failed " with
    | none => IsMessageRepeated withIPv4 Line
    | some Method =>
      let Method := Method + sizeof ": Failed "
      let Attempts := 1
      match ExtractData withIPv4 Line Method with
      | none => none
      | some (Address, AddressLength) => some (Address, AddressLength, Attempts)

/-- The function `IsLastRepeated(Line)`. -/
def IsLastRepeated (Line : List Char) : Nat :=
  match strstr Line 0 " sshd[" with
  | none => 0
  | some SSHd =>
    match strstr Line SSHd ": last message repeated " with
    | none => 0
    | some Times =>
      let Times := Times + (sizeof ": last message repeated " - 1)
      match strstr Line Times " times" with
      | none => 0
      | some _ => strtoul Line Times

/-! ## Host registry -/

/-- What a call of `UpdateHost` leaves: its return value, the vector, and the addresses it
handed to `AddToDeny`. -/
structure UpdateResult where
  InsertRequired : Bool
  Hosts : List HostIP
  Denied : List (List Char)
  deriving DecidableEq, Repr

/-- The function `UpdateHost(Host, Hosts, Repeated)`: the loop stops at the first entry whose address
compares equal to `Host`. -/
def UpdateHost (Host : List Char) : List HostIP → Nat → UpdateResult
  | [], _ => { InsertRequired := true, Hosts := [], Denied := [] }
  | it :: rest, Repeated =>
    if it.Address = Host then
      let it1 : HostIP := { it with Attempts := wrapUL (it.Attempts + Repeated) }
      if it1.Attempts ≥ MaxAttempts ∧ it1.Written = false then
        { InsertRequired := false,
          Hosts := { it1 with Expire := toTime (it1.Expire + 60), Written := true } :: rest,
          Denied := [it1.Address] }
      else
        { InsertRequired := false,
          Hosts := { it1 with
            Expire := toTime (wrapUL (toUL it1.Expire +
              wrapUL (wrapUL (Repeated * FailurePenalty) * 60))) } :: rest,
          Denied := [] }
    else
      let r := UpdateHost Host rest Repeated
      { InsertRequired := r.InsertRequired, Hosts := it :: r.Hosts, Denied := r.Denied }

/-! ## The per-line step of `ReadLine` -/

/-- What `ReadLine` works on: the vector `Hosts`, the static `LastAddress`, the local `Host`
of the running invocation, and the `AddToDeny` calls made so far. -/
structure ReadState where
  Hosts : List HostIP
  LastAddress : List Char
  Host : List Char
  Denied : List (List Char)
  deriving DecidableEq, Repr

/-- The end of the loop body of `ReadLine`: `UpdateHost`, the insertion it may ask for, and
the sort. `now` is what `time(0)` returns. -/
def ReadLine_update (now : Int) (Repeated : Nat) (st : ReadState) : ReadState :=
  let r := UpdateHost st.LastAddress st.Hosts Repeated
  let st1 : ReadState := { st with Hosts := r.Hosts, Denied := st.Denied ++ r.Denied }
  let st2 : ReadState :=
    if r.InsertRequired then
      let pushed : ReadState :=
        { st1 with
          Hosts := st1.Hosts ++
            [HostIP.construct now st1.Host Repeated (decide (Repeated ≥ MaxAttempts))] }
      if Repeated ≥ MaxAttempts then
        { pushed with Denied := pushed.Denied ++ [pushed.LastAddress] }
      else pushed
    else st1
  { st2 with Hosts := sortHosts st2.Hosts }

/-- The string built by `Host = Address; Host.erase(AddressLength)`: the first
`AddressLength` characters of the C string at `Address`. -/
def addressText (Line : List Char) (Address AddressLength : Nat) : List Char :=
  (cstr Line Address).take AddressLength

/-- One turn of the loop of `ReadLine` on the line held by the buffer `Line`. -/
def ReadLine_step (withIPv4 : Bool) (now : Int) (Line : List Char) (st : ReadState) :
    ReadState :=
  match IsValidLine withIPv4 Line with
  | none =>
    if st.LastAddress ≠ [] then
      let Repeated := IsLastRepeated Line
      if Repeated = 0 then { st with LastAddress := [] }
      else ReadLine_update now Repeated st
    else { st with LastAddress := [] }
  | some (Address, AddressLength, Repeated) =>
    let Host := addressText Line Address AddressLength
    ReadLine_update now Repeated { st with Host := Host, LastAddress := Host }

/-- Consecutive turns of the end of the loop body of `ReadLine`, each with the value of
`time(0)` and the repeat count of its line; the remembered address is not changed by them. -/
def ReadLine_updates : List (Int × Nat) → ReadState → ReadState
  | [], st => st
  | (now, Repeated) :: rest, st => ReadLine_updates rest (ReadLine_update now Repeated st)

/-! ## Vocabulary of the statements -/

/-- The text of `s` from index `a` up to, not including, index `b`. -/
def between (s : List Char) (a b : Nat) : List Char := (s.drop a).take (b - a)

/-- The marker `needle` stands in `s` at index `i`. -/
def OccursAt (needle : String) (s : List Char) (i : Nat) : Prop :=
  needle.toList <+: s.drop i

/-- Index `i` is the first place at or after `start` where the marker `needle` stands in `s`. -/
def FirstOccFrom (needle : String) (s : List Char) (start i : Nat) : Prop :=
  start ≤ i ∧ OccursAt needle s i ∧ ∀ j < i, start ≤ j → ¬ OccursAt needle s j

instance (needle : String) (s : List Char) (i : Nat) : Decidable (OccursAt needle s i) := by
  unfold OccursAt; infer_instance

instance (needle : String) (s : List Char) (start i : Nat) :
    Decidable (FirstOccFrom needle s start i) := by
  unfold FirstOccFrom; infer_instance

/-! ## Sample lines -/

/-- A failure line of sshd. -/
def failedLine : List Char :=
  "... sshd[123]: Failed password for invalid user x from 2001:db8::1 port 4444 ssh2".toList

/-- A failure line that syslog folded, with an IPv4 address. -/
def repeatedLine : List Char :=
  "... sshd[123]: message repeated 7 times: [ Failed password for x from 10.0.0.5 port 22 ssh2 ]".toList

/-- A continuation line. -/
def lastRepeatedLine : List Char :=
  "... sshd[123]: last message repeated 3 times".toList

/-- A line of another daemon. -/
def cronLine : List Char :=
  "... cron[77]: Failed password for x from 2001:db8::1 port 4444 ssh2".toList

/-- A failure line in which " for " follows ": Failed " at once. -/
def noMethodLine : List Char :=
  "... sshd[123]: Failed  for x from 2001:db8::1 port 4444 ssh2".toList

/-- A failure line in which " from " follows " for " at once. -/
def noUserLine : List Char :=
  "... sshd[123]: Failed password for  from 2001:db8::1 port 4444 ssh2".toList

/-- A folded failure line in which " for " follows " times: [ Failed " at once. -/
def repeatedNoMethodLine : List Char :=
  "... sshd[123]: message repeated 7 times: [ Failed  for x from 10.0.0.5 port 22 ssh2 ]".toList

/-- A continuation line whose count is `2 ^ 64`. -/
def lastRepeatedHugeLine : List Char :=
  "... sshd[123]: last message repeated 18446744073709551616 times".toList

/-- The largest count `strtoul` can hand out, e.g. from a continuation line
"... sshd[123]: last message repeated 18446744073709551615 times". -/
def hugeCount : Nat := 18446744073709551615

/-- An entry created by one failure of the host "2001:db8::1" at time 1700000000. -/
def sampleEntry : HostIP :=
  { FirstSeen := 1700000000, Address := "2001:db8::1".toList, Attempts := 1,
    Expire := 1700000300, Written := false }

/-- An entry of another host, created earlier. -/
def otherEntry : HostIP :=
  { FirstSeen := 1699999000, Address := "2001:db8::2".toList, Attempts := 2,
    Expire := 1699999600, Written := false }

/-- The state after a failure of the host "2001:db8::1" has been recorded. -/
def sampleState : ReadState :=
  { Hosts := [otherEntry, sampleEntry], LastAddress := "2001:db8::1".toList,
    Host := "2001:db8::1".toList, Denied := [] }

/-- The state of a fresh process at the start of `ReadLine`. -/
def emptyState : ReadState := { Hosts := [], LastAddress := [], Host := [], Denied := [] }

/-- The state in which the failure line of "2001:db8::1" has been classified and the host
is not tracked yet. -/
def untrackedState : ReadState :=
  { Hosts := [otherEntry], LastAddress := "2001:db8::1".toList,
    Host := "2001:db8::1".toList, Denied := [] }

/-- A failure line whose address has neither ':' nor '.'. -/
def namedHostLine : List Char :=
  "... sshd[123]: Failed password for x from localhost port 4444 ssh2".toList

/-! ## The deny file -/

/-- The newline character. -/
def NL : Char := Char.ofNat 10

/-- The string `Entry` that `AddToDeny(Host)` builds and writes to the deny file. -/
def AddToDeny_entry (withIPv4 : Bool) (Host : List Char) : List Char :=
  if withIPv4 then
    let IsIPv6 : Bool := decide (':' ∈ Host)
    if IsIPv6 then "sshd: [".toList ++ Host ++ "]".toList ++ [NL]
    else "sshd: ".toList ++ Host ++ [NL]
  else "sshd: [".toList ++ Host ++ "]".toList ++ [NL]

/-! ## The assertions of `UpdateHost` -/

/-- The condition of `soft_assert(!Host.empty())`. -/
def UpdateHost_assert_host (Host : List Char) : Bool := !Host.isEmpty

/-- The arguments of the call `UpdateHost(LastAddress, Hosts, Repeated)` in one turn of the
loop of `ReadLine`: the state at the call (with `Host` and `LastAddress` as the turn has set
them) and `Repeated`; `none` when the turn ends in `continue` before the call. -/
def ReadLine_call (withIPv4 : Bool) (Line : List Char) (st : ReadState) :
    Option (ReadState × Nat) :=
  match IsValidLine withIPv4 Line with
  | none =>
    if st.LastAddress ≠ [] then
      let Repeated := IsLastRepeated Line
      if Repeated = 0 then none else some (st, Repeated)
    else none
  | some (Address, AddressLength, Repeated) =>
    let Host := addressText Line Address AddressLength
    some ({ st with Host := Host, LastAddress := Host }, Repeated)

/-! ## Reading lines -/

/-- The size of the buffer `Line` of `ReadLine`. -/
def LineSize : Nat := 255

/-- The loops of `ReadLine`, one `read` of one byte at a time. `input` holds the bytes the
descriptor can deliver now (after them `read` returns less than 1), `Line` is the buffer,
`Read` the position in it and `k` the number of lines classified so far; `time k` is what
`time(0)` returns in the turn of line `k`. A byte is stored at `Line[Read]`; a newline is
replaced by NUL and ends the line, the 255th byte ends it too, and so does a failed `read`
when `Read` is not 0; a failed `read` with `Read = 0` returns. -/
def ReadLine_feed (withIPv4 : Bool) (time : Nat → Int) :
    List Char → List Char → Nat → Nat → ReadState → ReadState
  | [], Line, Read, k, st =>
    if Read = 0 then st else ReadLine_step withIPv4 (time k) Line st
  | c :: rest, Line, Read, k, st =>
    if c = NL then
      ReadLine_feed withIPv4 time rest (Line.set Read NUL) 0 (k + 1)
        (ReadLine_step withIPv4 (time k) (Line.set Read NUL) st)
    else if Read + 1 < LineSize then
      ReadLine_feed withIPv4 time rest (Line.set Read c) (Read + 1) k st
    else
      ReadLine_feed withIPv4 time rest (Line.set Read c) 0 (k + 1)
        (ReadLine_step withIPv4 (time k) (Line.set Read c) st)

/-- The buffers that the loops of `ReadLine` hand to the classifier, in order. -/
def ReadLine_lines : List Char → List Char → Nat → List (List Char)
  | [], Line, Read => if Read = 0 then [] else [Line]
  | c :: rest, Line, Read =>
    if c = NL then (Line.set Read NUL) :: ReadLine_lines rest (Line.set Read NUL) 0
    else if Read + 1 < LineSize then ReadLine_lines rest (Line.set Read c) (Read + 1)
    else (Line.set Read c) :: ReadLine_lines rest (Line.set Read c) 0

/-- The per-line steps of `ReadLine` on a list of buffers, the first one being line `k`. -/
def ReadLine_steps (withIPv4 : Bool) (time : Nat → Int) :
    Nat → List (List Char) → ReadState → ReadState
  | _, [], st => st
  | k, Line :: rest, st =>
    ReadLine_steps withIPv4 time (k + 1) rest (ReadLine_step withIPv4 (time k) Line st)

/-- One invocation `ReadLine(File, Hosts)`: the local `Host` starts empty, `Line` holds
whatever the stack holds, `LastAddress` is static and `Hosts` is the caller's vector. -/
def ReadLine (withIPv4 : Bool) (time : Nat → Int) (input Line : List Char)
    (st : ReadState) : ReadState :=
  ReadLine_feed withIPv4 time input Line 0 0 { st with Host := [] }

/-! ## The event loop of `main` -/

/-- Conversion of an integer result to `int` (32 bits, two's complement). -/
def toInt (x : Int) : Int := (x + 2 ^ 31) % 2 ^ 32 - 2 ^ 31

/-- The value of `Timeout` handed to `poll`: `-1`, or for a vector that is not empty
`(int)Hosts.back().Expire - (int)time(0) * 1000`, where the cast binds tighter than the
product and the product tighter than the difference. -/
def pollTimeout (Hosts : List HostIP) (now : Int) : Int :=
  match Hosts.getLast? with
  | none => -1
  | some back => toInt (toInt back.Expire - toInt (toInt now * 1000))

/-- The purge loop of `main` on the vector read from the back: `back` is `Hosts.back()`,
dropping it is `pop_back()`, and `time k` is what `time(0)` returns in turn `k`. -/
def purgeBack (time : Nat → Int) : Nat → List HostIP → List HostIP
  | _, [] => []
  | k, back :: rest =>
    if back.Expire > time k then back :: rest else purgeBack time (k + 1) rest

/-- The purge loop of `main`. -/
def purge (time : Nat → Int) (Hosts : List HostIP) : List HostIP :=
  (purgeBack time 0 Hosts.reverse).reverse

/-- One event of the daemon that touches the state of `ReadLine` and the vector. -/
inductive LoopEvent where
  | enter : LoopEvent
  | line (now : Int) (Line : List Char) : LoopEvent
  | purge (time : Nat → Int) : LoopEvent

/-- The effect of an event: `enter` is the entry into `ReadLine` (the local `Host` is
constructed empty), `line` one turn of its loop on the buffer `Line`, `purge` one run of the
purge loop. -/
def LoopEvent.apply (withIPv4 : Bool) : LoopEvent → ReadState → ReadState
  | LoopEvent.enter, st => { st with Host := [] }
  | LoopEvent.line now Line, st => ReadLine_step withIPv4 now Line st
  | LoopEvent.purge time, st => { st with Hosts := ForbidHosts.purge time st.Hosts }

/-- The state after a sequence of events. -/
def loopRun (withIPv4 : Bool) : List LoopEvent → ReadState → ReadState
  | [], st => st
  | ev :: rest, st => loopRun withIPv4 rest (ev.apply withIPv4 st)

/-- One turn of the loop of `main` after `poll` returns: the bytes `input` are available,
`ReadLine` runs, then the purge loop. -/
structure Turn where
  input : List Char
  Line : List Char
  readTime : Nat → Int
  purgeTime : Nat → Int

/-- The state after one turn of the loop of `main`. -/
def mainTurn (withIPv4 : Bool) (t : Turn) (st : ReadState) : ReadState :=
  let st1 := ReadLine withIPv4 t.readTime t.input t.Line st
  { st1 with Hosts := purge t.purgeTime st1.Hosts }

/-- The state after a sequence of turns of the loop of `main`. -/
def mainRun (withIPv4 : Bool) : List Turn → ReadState → ReadState
  | [], st => st
  | t :: rest, st => mainRun withIPv4 rest (mainTurn withIPv4 t st)

/-! ## More sample data -/

/-- A line buffer that holds only NUL bytes. -/
def blankLine : List Char := List.replicate 255 NUL

/-- A folded failure line with the count 0. -/
def zeroFoldedLine : List Char :=
  "... sshd[123]: message repeated 0 times: [ Failed password for x from 2001:db8::1 port 22 ssh2 ]".toList

/-- A folded failure line with the count `ULONG_MAX`. -/
def hugeFoldedLine : List Char :=
  "... sshd[123]: message repeated 18446744073709551615 times: [ Failed password for x from 2001:db8::1 port 22 ssh2 ]".toList

/-- A folded failure line with the count 5. -/
def fiveFoldedLine : List Char :=
  "... sshd[123]: message repeated 5 times: [ Failed password for x from 2001:db8::1 port 22 ssh2 ]".toList

/-- A failure line of the host "2001:db8::2". -/
def otherFailedLine : List Char :=
  "... sshd[123]: Failed password for root from 2001:db8::2 port 4444 ssh2".toList

/-- A turn of the loop of `main` in which the failure line of "2001:db8::1" has been
appended to the log at time 1700000000. -/
def firstTurn : Turn :=
  { input := failedLine ++ [NL], Line := blankLine,
    readTime := fun _ => 1700000000, purgeTime := fun _ => 1700000000 }

/-- A turn 300 seconds later, when `poll` times out and nothing is to be read. -/
def idleTurn : Turn :=
  { input := [], Line := blankLine,
    readTime := fun _ => 1700000300, purgeTime := fun _ => 1700000300 }

/-- A turn at time 1700000400 in which syslog has appended two continuation lines. -/
def continuationTurn : Turn :=
  { input := lastRepeatedLine ++ [NL] ++ lastRepeatedLine ++ [NL], Line := blankLine,
    readTime := fun _ => 1700000400, purgeTime := fun _ => 1700000400 }

/-- The entry that `otherFailedLine` creates at time 1700000100. -/
def secondEntry : HostIP :=
  { FirstSeen := 1700000100, Address := "2001:db8::2".toList, Attempts := 1,
    Expire := 1700000400, Written := false }

/-- The events of a first invocation of `ReadLine` that reads the failure lines of two
hosts 100 seconds apart, followed by the purge loop. -/
def twoHostsEvents : List LoopEvent :=
  [LoopEvent.enter, LoopEvent.line 1700000000 failedLine,
   LoopEvent.line 1700000100 otherFailedLine, LoopEvent.purge (fun _ => 1700000100)]

/-! ## The insertion in `ReadLine` -/

/-- The condition of `soft_assert((InsertRequired && Repeated == 1) || !InsertRequired)` at
the end of `UpdateHost`. -/
def UpdateHost_assert_insert (InsertRequired : Bool) (Repeated : Nat) : Bool :=
  (InsertRequired && Repeated == 1) || !InsertRequired

/-- The entry that the end of the loop body of `ReadLine` appends with `push_back` when
`UpdateHost` reports that an insert is required: it is built from the local `Host`. -/
def ReadLine_pushed (now : Int) (Repeated : Nat) (st : ReadState) : Option HostIP :=
  if (UpdateHost st.LastAddress st.Hosts Repeated).InsertRequired then
    some (HostIP.construct now st.Host Repeated (decide (Repeated ≥ MaxAttempts)))
  else none

/-- A turn at time 1700000400 in which syslog has appended one continuation line. -/
def oneContinuationTurn : Turn :=
  { input := lastRepeatedLine ++ [NL], Line := blankLine,
    readTime := fun _ => 1700000400, purgeTime := fun _ => 1700000400 }

/-- The state in which `ReadLine` is entered in the third turn, after the failure line of
"2001:db8::1" was read in the first turn and its entry purged in the second. -/
def afterPurgeState : ReadState :=
  { Hosts := [], LastAddress := "2001:db8::1".toList, Host := [], Denied := [] }

/-- A continuation line with the count `ULONG_MAX`. -/
def hugeContinuationLine : List Char :=
  "... sshd[123]: last message repeated 18446744073709551615 times".toList

/-- A continuation line with the count 6. -/
def sixContinuationLine : List Char :=
  "... sshd[123]: last message repeated 6 times".toList

/-- A state in which only `otherEntry` is tracked and no address is remembered. -/
def otherOnlyState : ReadState :=
  { Hosts := [otherEntry], LastAddress := [], Host := [], Denied := [] }

/-! ## Searching in lists -/

theorem findSub_eq_some_iff (needle s : List Char) (i : Nat) :
    findSub needle s = some i ↔ needle <+: s.drop i ∧ ∀ j < i, ¬ needle <+: s.drop j := by
  induction s generalizing i with
  | nil =>
    cases needle with
    | nil =>
      simp only [findSub, List.isEmpty_nil, if_true, Option.some.injEq, List.drop_nil,
        List.prefix_rfl, not_true_eq_false, imp_false, not_lt, true_and]
      constructor
      · intro h j; omega
      · intro h; have := h 0; omega
    | cons a as => simp [findSub]
  | cons c cs ih =>
    unfold findSub
    by_cases hp : needle.isPrefixOf (c :: cs) = true
    · rw [if_pos hp]
      have hp1 : needle <+: c :: cs := List.isPrefixOf_iff_prefix.mp hp
      constructor
      · intro h
        have hi : i = 0 := by simpa using h.symm
        subst hi
        exact ⟨by simpa using hp1, fun j hj => absurd hj (Nat.not_lt_zero j)⟩
      · rintro ⟨_, h2⟩
        cases i with
        | zero => rfl
        | succ k => exact absurd (by simpa using hp1) (h2 0 (Nat.succ_pos k))
    · rw [if_neg hp]
      have hp1 : ¬ needle <+: c :: cs := fun h => hp (List.isPrefixOf_iff_prefix.mpr h)
      cases i with
      | zero =>
        constructor
        · intro h
          cases hf : findSub needle cs <;> simp [hf] at h
        · rintro ⟨h1, _⟩
          exact absurd (by simpa using h1) hp1
      | succ k =>
        have hmap : Option.map (fun x => x + 1) (findSub needle cs) = some (k + 1) ↔
            findSub needle cs = some k := by
          cases hf : findSub needle cs <;> simp
        rw [hmap, ih k]
        constructor
        · rintro ⟨h1, h2⟩
          refine ⟨by simpa using h1, ?_⟩
          intro j hj
          cases j with
          | zero => simpa using hp1
          | succ m => simpa using h2 m (by omega)
        · rintro ⟨h1, h2⟩
          refine ⟨by simpa using h1, ?_⟩
          intro j hj
          simpa using h2 (j + 1) (by omega)

theorem findSub_eq_none_iff (needle s : List Char) :
    findSub needle s = none ↔ ¬ needle <:+: s := by
  induction s with
  | nil =>
    cases needle with
    | nil => simp [findSub]
    | cons a as => simp [findSub]
  | cons c cs ih =>
    unfold findSub
    by_cases hp : needle.isPrefixOf (c :: cs) = true
    · rw [if_pos hp]
      have hp1 : needle <+: c :: cs := List.isPrefixOf_iff_prefix.mp hp
      simp [hp1.isInfix]
    · rw [if_neg hp]
      have hp1 : ¬ needle <+: c :: cs := fun h => hp (List.isPrefixOf_iff_prefix.mpr h)
      rw [List.infix_cons_iff]
      simp [ih, hp1]

theorem findChar_eq_some_iff (c : Char) (s : List Char) (i : Nat) :
    findChar c s = some i ↔ s[i]? = some c ∧ ∀ j < i, s[j]? ≠ some c := by
  induction s generalizing i with
  | nil => simp [findChar]
  | cons d ds ih =>
    unfold findChar
    by_cases hd : d = c
    · rw [if_pos hd]
      subst hd
      constructor
      · intro h
        have hi : i = 0 := by simpa using h.symm
        subst hi
        simp
      · rintro ⟨_, h2⟩
        cases i with
        | zero => rfl
        | succ k => exact absurd (by simp) (h2 0 (Nat.succ_pos k))
    · rw [if_neg hd]
      cases i with
      | zero =>
        constructor
        · intro h
          cases hf : findChar c ds <;> simp [hf] at h
        · rintro ⟨h1, _⟩
          exact absurd (by simpa using h1) hd
      | succ k =>
        have hmap : Option.map (fun x => x + 1) (findChar c ds) = some (k + 1) ↔
            findChar c ds = some k := by
          cases hf : findChar c ds <;> simp
        rw [hmap, ih k]
        constructor
        · rintro ⟨h1, h2⟩
          refine ⟨by simpa using h1, ?_⟩
          intro j hj
          cases j with
          | zero => simpa using hd
          | succ m => simpa using h2 m (by omega)
        · rintro ⟨h1, h2⟩
          refine ⟨by simpa using h1, ?_⟩
          intro j hj
          simpa using h2 (j + 1) (by omega)

theorem findChar_eq_none_iff (c : Char) (s : List Char) :
    findChar c s = none ↔ c ∉ s := by
  induction s with
  | nil => simp [findChar]
  | cons d ds ih =>
    unfold findChar
    by_cases hd : d = c
    · simp [hd]
    · rw [if_neg hd]
      have hd1 : ¬ c = d := fun h => hd h.symm
      cases hf : findChar c ds with
      | none => simpa [hd1] using ih.mp hf
      | some k =>
        have : c ∈ ds := by
          by_contra hc
          rw [ih.mpr hc] at hf
          cases hf
        simp [this]

/-! ## C strings in a buffer -/

theorem takeWhile_drop_of_le (P : Char → Bool) (l : List Char) (p : Nat)
    (hp : p ≤ (l.takeWhile P).length) :
    (l.drop p).takeWhile P = (l.takeWhile P).drop p := by
  induction l generalizing p with
  | nil => simp
  | cons a as ih =>
    cases p with
    | zero => simp
    | succ k =>
      by_cases ha : P a = true
      · rw [List.takeWhile_cons_of_pos ha] at hp ⊢
        simp only [List.drop_succ_cons]
        exact ih k (by simpa using hp)
      · rw [List.takeWhile_cons_of_neg ha] at hp
        simp at hp

theorem take_takeWhile_of_le (P : Char → Bool) (l : List Char) (k : Nat)
    (hk : k ≤ (l.takeWhile P).length) :
    (l.takeWhile P).take k = l.take k := by
  induction l generalizing k with
  | nil => simp
  | cons a as ih =>
    cases k with
    | zero => simp
    | succ m =>
      by_cases ha : P a = true
      · rw [List.takeWhile_cons_of_pos ha] at hk ⊢
        simp only [List.take_succ_cons]
        rw [ih m (by simpa using hk)]
      · rw [List.takeWhile_cons_of_neg ha] at hk
        simp at hk

theorem cstr_eq_drop (mem : List Char) (p : Nat) (hp : p ≤ (cstr mem 0).length) :
    cstr mem p = (cstr mem 0).drop p := by
  unfold cstr at *
  simpa using takeWhile_drop_of_le _ mem p (by simpa using hp)

theorem take_cstr (mem : List Char) (p k : Nat) (hk : k ≤ (cstr mem p).length) :
    (cstr mem p).take k = (mem.drop p).take k :=
  take_takeWhile_of_le _ _ k hk

theorem occursAt_lt_length {needle : String} {s : List Char} {i : Nat}
    (hne : needle.toList ≠ []) (h : OccursAt needle s i) :
    i + needle.toList.length ≤ s.length := by
  have h1 := h.length_le
  simp only [List.length_drop] at h1
  have h2 : 0 < needle.toList.length := List.length_pos.mpr hne
  omega

theorem strstr_eq_some_of_firstOcc {needle : String} {mem : List Char} {p i : Nat}
    (hne : needle.toList ≠ []) (h : FirstOccFrom needle (cstr mem 0) p i) :
    strstr mem p needle = some i := by
  obtain ⟨hpi, hocc, hfirst⟩ := h
  have hlen := occursAt_lt_length hne hocc
  have hp : p ≤ (cstr mem 0).length := by omega
  unfold strstr
  rw [cstr_eq_drop mem p hp]
  have hk : findSub needle.toList ((cstr mem 0).drop p) = some (i - p) := by
    rw [findSub_eq_some_iff]
    constructor
    · rw [List.drop_drop]
      have : p + (i - p) = i := by omega
      simpa [this, add_comm] using hocc
    · intro j hj
      rw [List.drop_drop]
      have := hfirst (p + j) (by omega) (by omega)
      simpa [OccursAt, add_comm] using this
  rw [hk]
  simp
  omega

theorem strstr_eq_none_of_not_infix {needle : String} {mem : List Char} {p : Nat}
    (hp : p ≤ (cstr mem 0).length) (h : ¬ needle.toList <:+: (cstr mem 0).drop p) :
    strstr mem p needle = none := by
  unfold strstr
  rw [cstr_eq_drop mem p hp, (findSub_eq_none_iff _ _).mpr h]
  rfl

theorem findSub_not_infix_take {needle s : List Char} {k : Nat} (hne : needle ≠ [])
    (h : findSub needle s = some k) : ¬ needle <:+: s.take k := by
  rintro ⟨a, b, hab⟩
  have hfirst := ((findSub_eq_some_iff needle s k).mp h).2
  have hlen : a.length + needle.length + b.length = (s.take k).length := by
    rw [← hab]; simp [Nat.add_assoc]
  have hk : (s.take k).length ≤ k := by simp
  have hpos : 0 < needle.length := List.length_pos.mpr hne
  apply hfirst a.length (by omega)
  have hs : s = a ++ (needle ++ (b ++ s.drop k)) := by
    conv_lhs => rw [← List.take_append_drop k s, ← hab]
    simp
  rw [hs, List.drop_left]
  exact List.prefix_append _ _

theorem getElem?_of_findSub {needle s : List Char} {k : Nat} {h0 : Char} {t : List Char}
    (hn : needle = h0 :: t) (h : findSub needle s = some k) : s[k]? = some h0 := by
  have hp := ((findSub_eq_some_iff needle s k).mp h).1
  subst hn
  obtain ⟨r, hr⟩ := hp
  have : (s.drop k)[0]? = some h0 := by rw [← hr]; simp
  simpa using this

theorem findSub_le_length {needle s : List Char} {k : Nat}
    (h : findSub needle s = some k) : k + needle.length ≤ s.length ∨ needle = [] := by
  have hp := ((findSub_eq_some_iff needle s k).mp h).1
  have h1 := hp.length_le
  simp only [List.length_drop] at h1
  cases needle with
  | nil => right; rfl
  | cons a as => left; simp at h1 ⊢; omega

/-- The test `Colon == 0 || Colon > End` of `ExtractData`, read on the address text. -/
theorem charTest_eq_true_iff (mem : List Char) (H k : Nat) (needle : String) (h0 : Char)
    (t : List Char) (c : Char) (hn : needle.toList = h0 :: t) (hc : h0 ≠ c)
    (hf : findSub needle.toList (cstr mem H) = some k) :
    (match strchr mem H c with
      | none => true
      | some C => decide (C > k + H)) = true ↔ c ∉ (mem.drop H).take k := by
  have hk : k ≤ (cstr mem H).length := by
    rcases findSub_le_length hf with h | h
    · omega
    · rw [hn] at h; cases h
  rw [← take_cstr mem H k hk]
  have hhead := getElem?_of_findSub hn hf
  unfold strchr
  cases hfc : findChar c (cstr mem H) with
  | none =>
    have := (findChar_eq_none_iff c _).mp hfc
    simp only [Option.map_none', true_iff]
    exact fun hm => this (List.mem_of_mem_take hm)
  | some i =>
    obtain ⟨hi, hfirst⟩ := (findChar_eq_some_iff c _ i).mp hfc
    simp only [Option.map_some', gt_iff_lt, decide_eq_true_eq, add_lt_add_iff_right]
    constructor
    · intro hki hm
      obtain ⟨j, hj, hjc⟩ := List.mem_iff_getElem.mp hm
      have hjk : j < k := by simpa using (lt_of_lt_of_le hj (by simp))
      have hj2 : j < (cstr mem H).length := by omega
      apply hfirst j (by omega)
      rw [List.getElem_take] at hjc
      rw [List.getElem?_eq_getElem hj2, hjc]
    · intro hm
      by_contra hki
      have hik : i ≤ k := by omega
      rcases Nat.lt_or_eq_of_le hik with hlt | heq
      · apply hm
        have hil : i < (cstr mem H).length := by
          by_contra hcon
          rw [List.getElem?_eq_none (by omega)] at hi
          cases hi
        rw [List.mem_iff_getElem]
        refine ⟨i, by simp; omega, ?_⟩
        rw [List.getElem_take]
        rw [List.getElem?_eq_getElem hil] at hi
        exact Option.some.inj hi
      · subst heq
        rw [hi] at hhead
        exact hc (Option.some.inj hhead).symm

theorem strstr_eq_some_iff (mem : List Char) (p : Nat) (needle : String) (e : Nat) :
    strstr mem p needle = some e ↔
      ∃ k, findSub needle.toList (cstr mem p) = some k ∧ k + p = e := by
  unfold strstr
  cases findSub needle.toList (cstr mem p) <;> simp

/-- What `ExtractData` computes once its three markers are found. -/
theorem ExtractData_eq_of_markers {withIPv4 : Bool} {mem : List Char} {Begin User Host k : Nat}
    (hU : strstr mem Begin " for " = some User)
    (hH : strstr mem (User + 6) " from " = some Host)
    (hE : findSub " port ".toList (cstr mem (Host + 6)) = some k) :
    ExtractData withIPv4 mem Begin =
      if (decide (':' ∉ (mem.drop (Host + 6)).take k) &&
          (!withIPv4 || decide ('.' ∉ (mem.drop (Host + 6)).take k))) then none
      else some (Host + 6, k) := by
  have hE1 : strstr mem (Host + 6) " port " = some (k + (Host + 6)) :=
    (strstr_eq_some_iff _ _ _ _).mpr ⟨k, hE, rfl⟩
  have hcolon := charTest_eq_true_iff mem (Host + 6) k " port " ' ' "port ".toList ':'
    rfl (by decide) hE
  have hdot := charTest_eq_true_iff mem (Host + 6) k " port " ' ' "port ".toList '.'
    rfl (by decide) hE
  have hsz1 : sizeof " for " = 6 := rfl
  have hsz2 : sizeof " from " - 1 = 6 := rfl
  unfold ExtractData
  simp only [hU, hsz1, hsz2, hH, hE1, Nat.add_sub_cancel]
  by_cases hc : ':' ∉ (mem.drop (Host + 6)).take k
  · rw [hcolon.mpr hc]
    by_cases hd : '.' ∉ (mem.drop (Host + 6)).take k
    · rw [hdot.mpr hd]
      cases withIPv4 <;> simp [hc, hd]
    · have hd1 : ¬ ((match strchr mem (Host + 6) '.' with
          | none => true
          | some Dot => decide (Dot > k + (Host + 6))) = true) := fun h => hd (hdot.mp h)
      rw [Bool.not_eq_true] at hd1
      rw [hd1]
      cases withIPv4 <;> simp [hc, hd]
  · have hc1 : ¬ ((match strchr mem (Host + 6) ':' with
        | none => true
        | some Colon => decide (Colon > k + (Host + 6))) = true) := fun h => hc (hcolon.mp h)
    rw [Bool.not_eq_true] at hc1
    rw [hc1]
    cases withIPv4 <;> simp [hc]

/-! ## Decimal numerals -/

theorem toDigitsCore_append (f n : Nat) (ds : List Char) :
    Nat.toDigitsCore 10 f n ds = Nat.toDigitsCore 10 f n [] ++ ds := by
  induction f generalizing n ds with
  | zero => simp [Nat.toDigitsCore]
  | succ f ih =>
    simp only [Nat.toDigitsCore]
    split
    · simp
    · rw [ih (n / 10) (_ :: ds), ih (n / 10) [_]]
      simp

theorem toDigitsCore_fuel (n : Nat) : ∀ f g : Nat, n < f → n < g →
    Nat.toDigitsCore 10 f n [] = Nat.toDigitsCore 10 g n [] := by
  induction n using Nat.strong_induction_on with
  | _ n ih =>
    intro f g hf hg
    cases f with
    | zero => omega
    | succ f =>
      cases g with
      | zero => omega
      | succ g =>
        simp only [Nat.toDigitsCore]
        split
        · rfl
        · rename_i hq
          have hlt : n / 10 < n := Nat.div_lt_self (by omega) (by decide)
          rw [toDigitsCore_append f, toDigitsCore_append g,
            ih (n / 10) hlt f g (by omega) (by omega)]

theorem toDigits_step (n : Nat) (hn : 10 ≤ n) :
    Nat.toDigits 10 n = Nat.toDigits 10 (n / 10) ++ [Nat.digitChar (n % 10)] := by
  have hq : n / 10 ≠ 0 := by omega
  have hlt : n / 10 < n := Nat.div_lt_self (by omega) (by decide)
  show Nat.toDigitsCore 10 (n + 1) n [] = Nat.toDigitsCore 10 (n / 10 + 1) (n / 10) [] ++ _
  rw [Nat.toDigitsCore]
  simp only [hq, if_false]
  rw [toDigitsCore_append, toDigitsCore_fuel (n / 10) n (n / 10 + 1) hlt (by omega)]

theorem toDigits_small (n : Nat) (hn : n < 10) :
    Nat.toDigits 10 n = [Nat.digitChar n] := by
  have hq : n / 10 = 0 := by omega
  have hm : n % 10 = n := by omega
  show Nat.toDigitsCore 10 (n + 1) n [] = _
  rw [Nat.toDigitsCore]
  simp [hq, hm]

theorem digitChar_isdigit (d : Nat) (hd : d < 10) :
    isdigit (Nat.digitChar d) = true ∧ (Nat.digitChar d).toNat - 48 = d := by
  interval_cases d <;> exact ⟨by decide, by decide⟩

theorem toDigits_ne_nil (n : Nat) : Nat.toDigits 10 n ≠ [] := by
  by_cases hn : n < 10
  · rw [toDigits_small n hn]; simp
  · rw [toDigits_step n (by omega)]; simp

theorem toDigits_all_isdigit (n : Nat) : ∀ c ∈ Nat.toDigits 10 n, isdigit c = true := by
  induction n using Nat.strong_induction_on with
  | _ n ih =>
    intro c hc
    by_cases hn : n < 10
    · rw [toDigits_small n hn] at hc
      simp only [List.mem_singleton] at hc
      rw [hc]
      exact (digitChar_isdigit n hn).1
    · rw [toDigits_step n (by omega)] at hc
      rcases List.mem_append.mp hc with h | h
      · exact ih (n / 10) (Nat.div_lt_self (by omega) (by decide)) c h
      · simp only [List.mem_singleton] at h
        rw [h]
        exact (digitChar_isdigit (n % 10) (Nat.mod_lt _ (by decide))).1

theorem digitsValue_toDigits (n : Nat) : digitsValue (Nat.toDigits 10 n) = n := by
  induction n using Nat.strong_induction_on with
  | _ n ih =>
    by_cases hn : n < 10
    · rw [toDigits_small n hn]
      simp only [digitsValue, List.foldl_cons, List.foldl_nil]
      have := (digitChar_isdigit n hn).2
      omega
    · rw [toDigits_step n (by omega)]
      have h1 := ih (n / 10) (Nat.div_lt_self (by omega) (by decide))
      have h2 := (digitChar_isdigit (n % 10) (Nat.mod_lt _ (by decide))).2
      unfold digitsValue at h1 ⊢
      rw [List.foldl_append, h1]
      simp only [List.foldl_cons, List.foldl_nil]
      omega

theorem takeWhile_isdigit_append (D r : List Char) (c : Char)
    (hD : ∀ d ∈ D, isdigit d = true) (hc : isdigit c = false) :
    (D ++ c :: r).takeWhile isdigit = D := by
  induction D with
  | nil => simp [List.takeWhile, hc]
  | cons d ds ih =>
    have hd : isdigit d = true := hD d (List.mem_cons_self _ _)
    simp only [List.cons_append, List.takeWhile_cons, hd, if_true]
    rw [ih (fun x hx => hD x (List.mem_cons_of_mem _ hx))]

/-- The call `strtoul` on a decimal numeral that fits, followed by a character that is not a
digit, gives the number back. -/
theorem strtoul_toDigits {mem : List Char} {p N : Nat} {c : Char} {r : List Char}
    (hN : N ≤ ULONG_MAX) (hc : isdigit c = false)
    (h : cstr mem p = Nat.toDigits 10 N ++ c :: r) : strtoul mem p = N := by
  have hall := toDigits_all_isdigit N
  have hval := digitsValue_toDigits N
  have htw := takeWhile_isdigit_append (Nat.toDigits 10 N) r c hall hc
  unfold strtoul
  rw [h]
  cases hD : Nat.toDigits 10 N with
  | nil => exact absurd hD (toDigits_ne_nil N)
  | cons d ds =>
    rw [hD] at hall hval htw
    have hd : isdigit d = true := hall d (List.mem_cons_self _ _)
    have hsp : isspace d = false := by
      unfold isdigit at hd
      unfold isspace
      simp only [Bool.and_eq_true, decide_eq_true_eq] at hd
      have h32 : d ≠ ' ' := by
        rintro rfl
        have : (' ' : Char).toNat = 32 := rfl
        omega
      simp [h32]
      omega
    have hminus : d ≠ '-' := by
      rintro rfl
      exact absurd hd (by decide)
    have hplus : d ≠ '+' := by
      rintro rfl
      exact absurd hd (by decide)
    have hdw : List.dropWhile isspace (d :: ds ++ c :: r) = d :: ds ++ c :: r := by
      simp [List.dropWhile, hsp]
    simp only [hdw]
    have hbody : (match d :: ds ++ c :: r with
        | '-' :: r => r
        | '+' :: r => r
        | _ => d :: ds ++ c :: r) = d :: ds ++ c :: r := by
      split
      · rename_i heq
        simp at heq
        exact absurd heq.1 hminus
      · rename_i heq
        simp at heq
        exact absurd heq.1 hplus
      · rfl
    rw [hbody]
    simp only [List.cons_append] at htw ⊢
    rw [htw, hval]
    have : ¬ N > ULONG_MAX := by omega
    simp [this, hminus]

/-! ## Markers in a line -/

theorem occursAt_getElem? {needle : String} {s : List Char} {j : Nat}
    (h : OccursAt needle s j) (m : Nat) (hm : m < needle.toList.length) :
    s[j + m]? = needle.toList[m]? := by
  obtain ⟨r, hr⟩ := h
  have h1 : (s.drop j)[m]? = needle.toList[m]? := by
    rw [← hr, List.getElem?_append_left hm]
  rw [← h1, List.getElem?_drop]

theorem occursAt_of_infix_drop {needle : String} {s : List Char} {p : Nat}
    (h : needle.toList <:+: s.drop p) : ∃ j, p ≤ j ∧ OccursAt needle s j := by
  obtain ⟨a, b, hab⟩ := h
  refine ⟨p + a.length, by omega, ?_⟩
  unfold OccursAt
  rw [← List.drop_drop, ← hab]
  simp [List.append_assoc]

theorem infix_drop_of_occursAt {needle : String} {s : List Char} {p j : Nat}
    (hpj : p ≤ j) (h : OccursAt needle s j) : needle.toList <:+: s.drop p := by
  have hj : s.drop j = (s.drop p).drop (j - p) := by
    rw [List.drop_drop]
    congr 1
    omega
  unfold OccursAt at h
  rw [hj] at h
  exact h.isInfix.trans (List.drop_suffix _ _).isInfix

/-- An occurrence of `needle` that starts inside an occurrence of `tag` starts with a
character of `tag`. -/
theorem not_occursAt_inside {tag needle : String} {s : List Char} {p j : Nat}
    (htag : OccursAt tag s p) (hhead : ∀ c ∈ tag.toList, needle.toList.head? ≠ some c)
    (hne : needle.toList ≠ []) (hpj : p ≤ j) (hj : j < p + tag.toList.length) :
    ¬ OccursAt needle s j := by
  intro hocc
  have h1 := occursAt_getElem? hocc 0 (List.length_pos.mpr hne)
  have h2 := occursAt_getElem? htag (j - p) (by omega)
  have hjp : p + (j - p) = j := by omega
  rw [hjp] at h2
  rw [Nat.add_zero, h2] at h1
  have hlt : j - p < tag.toList.length := by omega
  rw [List.getElem?_eq_getElem hlt] at h1
  apply hhead _ (List.getElem_mem hlt)
  rw [List.head?_eq_getElem?, ← h1]

theorem firstOccFrom_of_after_tag (tag : String) {needle : String} {s : List Char} {p i : Nat}
    (htag : OccursAt tag s p) (hhead : ∀ c ∈ tag.toList, needle.toList.head? ≠ some c)
    (hne : needle.toList ≠ [])
    (h : FirstOccFrom needle s (p + tag.toList.length) i) : FirstOccFrom needle s p i := by
  obtain ⟨hpi, hocc, hfirst⟩ := h
  refine ⟨by omega, hocc, ?_⟩
  intro j hji hpj
  by_cases hj : j < p + tag.toList.length
  · exact not_occursAt_inside htag hhead hne hpj hj
  · exact hfirst j hji (by omega)

theorem strstr_eq_none_of_forall {needle : String} {mem : List Char} {p : Nat}
    (hp : p ≤ (cstr mem 0).length)
    (h : ∀ j, p ≤ j → ¬ OccursAt needle (cstr mem 0) j) : strstr mem p needle = none := by
  apply strstr_eq_none_of_not_infix hp
  intro hin
  obtain ⟨j, hpj, hocc⟩ := occursAt_of_infix_drop hin
  exact h j hpj hocc

theorem between_eq_take_cstr (mem : List Char) (a b : Nat)
    (hb : b ≤ (cstr mem 0).length) (hab : a ≤ b) :
    between (cstr mem 0) a b = (mem.drop a).take (b - a) ∧
    between (cstr mem 0) a b = addressText mem a (b - a) := by
  have h1 : cstr mem a = (cstr mem 0).drop a := cstr_eq_drop mem a (by omega)
  have h2 : b - a ≤ (cstr mem a).length := by
    rw [h1, List.length_drop]; omega
  have h3 := take_cstr mem a (b - a) h2
  unfold between addressText
  rw [← h1]
  exact ⟨h3, rfl⟩

/-- The outcome of `ExtractData` on a line whose markers stand where the code looks for
them, with an address that passes the filter. -/
theorem ExtractData_of_firstOcc (withIPv4 : Bool) {Line : List Char}
    {Begin for_ from_ port : Nat}
    (h3 : FirstOccFrom " for " (cstr Line 0) Begin for_)
    (h4 : FirstOccFrom " from " (cstr Line 0) (for_ + 6) from_)
    (h5 : FirstOccFrom " port " (cstr Line 0) (from_ + 6) port)
    (h6 : ':' ∈ between (cstr Line 0) (from_ + 6) port ∨
      (withIPv4 = true ∧ '.' ∈ between (cstr Line 0) (from_ + 6) port)) :
    ExtractData withIPv4 Line Begin = some (from_ + 6, port - (from_ + 6)) ∧
    addressText Line (from_ + 6) (port - (from_ + 6)) =
      between (cstr Line 0) (from_ + 6) port := by
  have hU := strstr_eq_some_of_firstOcc (by decide) h3
  have hH := strstr_eq_some_of_firstOcc (by decide) h4
  have hE := strstr_eq_some_of_firstOcc (by decide) h5
  obtain ⟨k, hk, hkp⟩ := (strstr_eq_some_iff _ _ _ _).mp hE
  have hlen := occursAt_lt_length (by decide) h5.2.1
  have hb := between_eq_take_cstr Line (from_ + 6) port (by omega) h5.1
  have hkeq : port - (from_ + 6) = k := by omega
  refine ⟨?_, hb.2.symm⟩
  rw [ExtractData_eq_of_markers hU hH hk, hkeq]
  rw [hb.1, hkeq] at h6
  rcases h6 with hc | ⟨hw, hd⟩
  · simp [hc]
  · subst hw
    simp [hd]

theorem prefix_getElem? {X s : List Char} {p : Nat} (h : X <+: s.drop p) (m : Nat)
    (hm : m < X.length) : s[p + m]? = X[m]? := by
  obtain ⟨r, hr⟩ := h
  have h1 : (s.drop p)[m]? = X[m]? := by
    rw [← hr, List.getElem?_append_left hm]
  rw [← h1, List.getElem?_drop]

/-- In a folded line the marker " times: [ Failed " that follows the count is the first
one from the start of ": message repeated ". -/
theorem firstOcc_times_failed {s : List Char} {rep N : Nat}
    (hM : OccursAt ": message repeated " s rep)
    (hD : (Nat.toDigits 10 N ++ " times: [ Failed ".toList) <+: s.drop (rep + 19)) :
    FirstOccFrom " times: [ Failed " s rep (rep + 19 + (Nat.toDigits 10 N).length) := by
  refine ⟨by omega, ?_, ?_⟩
  · obtain ⟨r, hr⟩ := hD
    unfold OccursAt
    rw [← List.drop_drop, ← hr]
    simp [List.append_assoc]
  · intro j hj hrep hocc
    have h0 := occursAt_getElem? hocc 0 (by decide)
    have h1 := occursAt_getElem? hocc 1 (by decide)
    have h0' : s[j]? = some ' ' := by simpa using h0
    have h1' : s[j + 1]? = some 't' := by simpa using h1
    have hdig : ∀ m, m < (Nat.toDigits 10 N).length →
        ∃ d, s[rep + 19 + m]? = some d ∧ isdigit d = true := by
      intro m hm
      have := prefix_getElem? hD m (by simp; omega)
      rw [List.getElem?_append_left hm, List.getElem?_eq_getElem hm] at this
      exact ⟨_, this, toDigits_all_isdigit N _ (List.getElem_mem hm)⟩
    by_cases ha : j < rep + 18
    · have e0 := occursAt_getElem? hM (j - rep) (by
        have : (": message repeated ".toList).length = 19 := rfl
        omega)
      have e1 := occursAt_getElem? hM (j - rep + 1) (by
        have : (": message repeated ".toList).length = 19 := rfl
        omega)
      have hj0 : rep + (j - rep) = j := by omega
      have hj1 : rep + (j - rep + 1) = j + 1 := by omega
      rw [hj0, h0'] at e0
      rw [hj1, h1'] at e1
      have hall : ∀ a < 18, ¬ (some ' ' = (": message repeated ".toList)[a]? ∧
          some 't' = (": message repeated ".toList)[a + 1]?) := by decide
      exact hall (j - rep) (by omega) ⟨e0, e1⟩
    · by_cases hb : j = rep + 18
      · obtain ⟨d, hd, hdd⟩ := hdig 0 (List.length_pos.mpr (toDigits_ne_nil N))
        have hj1 : j + 1 = rep + 19 + 0 := by omega
        rw [hj1, hd] at h1'
        have : d = 't' := Option.some.inj h1'
        subst this
        exact absurd hdd (by decide)
      · obtain ⟨d, hd, hdd⟩ := hdig (j - (rep + 19)) (by omega)
        have hj0 : rep + 19 + (j - (rep + 19)) = j := by omega
        rw [hj0, h0'] at hd
        have : ' ' = d := Option.some.inj hd
        subst this
        exact absurd hdd (by decide)

/-! ## Machine arithmetic without overflow -/

theorem wrapUL_of_le {x : Nat} (h : x ≤ ULONG_MAX) : wrapUL x = x := by
  unfold wrapUL ULONG_MAX at *
  omega

theorem toTime_of_range {x : Int} (h1 : TIME_MIN ≤ x) (h2 : x ≤ TIME_MAX) : toTime x = x := by
  unfold toTime TIME_MIN TIME_MAX at *
  omega

/-- The update `Expire += Repeated * FailurePenalty * 60` when the result fits `time_t`. -/
theorem expire_add_penalty {E : Int} {n : Nat} (h1 : TIME_MIN ≤ E)
    (h2 : E + n * 1 * 60 ≤ TIME_MAX) :
    toTime (wrapUL (toUL E + wrapUL (wrapUL (n * FailurePenalty) * 60))) = E + n * 1 * 60 := by
  unfold toTime wrapUL toUL FailurePenalty TIME_MIN TIME_MAX at *
  omega

/-- The initial value `Date + Attempts * FailurePenalty * HostExpire * 60` when it fits
`time_t`. -/
theorem expire_initial {D : Int} {n : Nat} (h1 : TIME_MIN ≤ D)
    (h2 : D + n * 1 * 5 * 60 ≤ TIME_MAX) :
    toTime (wrapUL (toUL D + wrapUL (wrapUL (wrapUL (n * FailurePenalty) * toUL HostExpire) * 60)))
      = D + n * 1 * 5 * 60 := by
  have h5 : toUL HostExpire = 5 := by decide
  rw [h5]
  unfold toTime wrapUL toUL FailurePenalty TIME_MIN TIME_MAX at *
  omega

/-! ## The registry under `UpdateHost` and the sort -/

/-- The loop of `UpdateHost` walks past the entries whose address differs from `Host`. -/
theorem UpdateHost_append (Host : List Char) (pre l : List HostIP) (n : Nat)
    (hpre : ∀ x ∈ pre, x.Address ≠ Host) :
    UpdateHost Host (pre ++ l) n =
      { InsertRequired := (UpdateHost Host l n).InsertRequired,
        Hosts := pre ++ (UpdateHost Host l n).Hosts,
        Denied := (UpdateHost Host l n).Denied } := by
  induction pre with
  | nil => rfl
  | cons x xs ih =>
    have hx : x.Address ≠ Host := hpre x (List.mem_cons_self _ _)
    have hxs : ∀ y ∈ xs, y.Address ≠ Host := fun y hy => hpre y (List.mem_cons_of_mem _ hy)
    have hstep : UpdateHost Host (x :: (xs ++ l)) n =
        { InsertRequired := (UpdateHost Host (xs ++ l) n).InsertRequired,
          Hosts := x :: (UpdateHost Host (xs ++ l) n).Hosts,
          Denied := (UpdateHost Host (xs ++ l) n).Denied } := by
      simp only [UpdateHost, hx, if_false]
    rw [List.cons_append, hstep, ih hxs]
    rfl

theorem UpdateHost_insertRequired_iff (Host : List Char) (Hosts : List HostIP) (n : Nat) :
    (UpdateHost Host Hosts n).InsertRequired = true ↔ ∀ x ∈ Hosts, x.Address ≠ Host := by
  induction Hosts with
  | nil => simp [UpdateHost]
  | cons h t ih =>
    by_cases hh : h.Address = Host
    · simp only [UpdateHost, hh, if_true]
      split <;> simp [hh]
    · simp only [UpdateHost, hh, if_false, ih]
      simp [hh]

theorem sortHosts_perm (l : List HostIP) : List.Perm (sortHosts l) l :=
  List.perm_insertionSort _ l

/-- The effect of `UpdateHost` on a registry that holds exactly one entry for `a`. -/
theorem UpdateHost_of_single (a : List Char) (Hosts : List HostIP) (e : HostIP) (n : Nat)
    (hf : Hosts.filter (fun x => decide (x.Address = a)) = [e]) :
    (UpdateHost a Hosts n).InsertRequired = false ∧
    (∃ e2 : HostIP,
      (UpdateHost a Hosts n).Hosts.filter (fun x => decide (x.Address = a)) = [e2] ∧
      e2.Attempts = wrapUL (e.Attempts + n) ∧
      e2.Written = (e.Written || decide (5 ≤ wrapUL (e.Attempts + n)))) ∧
    (UpdateHost a Hosts n).Denied =
      if 5 ≤ wrapUL (e.Attempts + n) ∧ e.Written = false then [a] else [] := by
  induction Hosts with
  | nil => simp at hf
  | cons h t ih =>
    by_cases hh : h.Address = a
    · have hft : h = e ∧ t.filter (fun x => decide (x.Address = a)) = [] := by
        simpa [List.filter_cons, hh] using hf
      obtain ⟨rfl, ht⟩ := hft
      by_cases hc : 5 ≤ wrapUL (h.Attempts + n) ∧ h.Written = false
      · have hc' : wrapUL (h.Attempts + n) ≥ MaxAttempts ∧ h.Written = false := hc
        simp only [UpdateHost, hh, if_true, hc', and_self, hc]
        rw [List.filter_cons_of_pos (by simp [hh]), ht]
        refine ⟨trivial, ⟨_, rfl, rfl, ?_⟩, trivial⟩
        simp [hc.1]
      · have hc' : ¬ (wrapUL (h.Attempts + n) ≥ MaxAttempts ∧ h.Written = false) := hc
        simp only [UpdateHost, hh, if_true, hc', if_false, hc]
        rw [List.filter_cons_of_pos (by simp [hh]), ht]
        refine ⟨trivial, ⟨_, rfl, rfl, ?_⟩, trivial⟩
        cases hW : h.Written with
        | true => simp
        | false =>
          have : ¬ 5 ≤ wrapUL (h.Attempts + n) := fun h5 => hc ⟨h5, hW⟩
          simp [this]
    · have hft : t.filter (fun x => decide (x.Address = a)) = [e] := by
        simpa [List.filter_cons, hh] using hf
      obtain ⟨h1, ⟨e2, h2, h3, h4⟩, h5⟩ := ih hft
      simp only [UpdateHost, hh, if_false]
      refine ⟨h1, ⟨e2, ?_, h3, h4⟩, h5⟩
      simpa [List.filter_cons, hh] using h2

theorem filter_sortHosts_eq_singleton (P : HostIP → Bool) (l : List HostIP) (e : HostIP)
    (h : l.filter P = [e]) : (sortHosts l).filter P = [e] := by
  have hp : List.Perm ((sortHosts l).filter P) (l.filter P) := (sortHosts_perm l).filter P
  rw [h] at hp
  exact List.perm_singleton.mp hp

/-- While the host `a` has exactly one entry, a run of updates for it makes one `AddToDeny`
call for `a` when the attempts reach 5 and none before or after. -/
theorem updates_commit_count (a : List Char) (evs : List (Int × Nat)) :
    ∀ (st : ReadState) (e : HostIP) (c : Nat),
      st.LastAddress = a →
      st.Hosts.filter (fun x => decide (x.Address = a)) = [e] →
      e.Written = decide (5 ≤ e.Attempts) →
      st.Denied.count a = c + (if 5 ≤ e.Attempts then 1 else 0) →
      e.Attempts + (evs.map Prod.snd).sum ≤ ULONG_MAX →
      (ReadLine_updates evs st).Denied.count a =
        c + (if 5 ≤ e.Attempts + (evs.map Prod.snd).sum then 1 else 0) := by
  induction evs with
  | nil =>
    intro st e c _ _ _ hcount _
    simpa [ReadLine_updates] using hcount
  | cons ev rest ih =>
    intro st e c hLast hf hW hcount hsum
    obtain ⟨now, r⟩ := ev
    simp only [List.map_cons, List.sum_cons] at hsum ⊢
    obtain ⟨hreq, ⟨e2, hf2, hA2, hW2⟩, hden⟩ := UpdateHost_of_single a st.Hosts e r hf
    have hw : wrapUL (e.Attempts + r) = e.Attempts + r := wrapUL_of_le (by omega)
    rw [hw] at hA2 hW2 hden
    have hupd : ReadLine_update now r st =
        { st with Hosts := sortHosts (UpdateHost a st.Hosts r).Hosts,
                  Denied := st.Denied ++ (UpdateHost a st.Hosts r).Denied } := by
      unfold ReadLine_update
      simp only [hLast, hreq]
      rfl
    have hstep := ih (ReadLine_update now r st) e2 c
      (by rw [hupd]; exact hLast)
      (by rw [hupd]; exact filter_sortHosts_eq_singleton _ _ _ hf2)
      (by
        rw [hW2, hA2, hW]
        by_cases h5 : 5 ≤ e.Attempts
        · have : 5 ≤ e.Attempts + r := by omega
          simp [h5, this]
        · simp [h5])
      (by
        rw [hupd, hA2]
        simp only [List.count_append, hcount, hden]
        by_cases h5 : 5 ≤ e.Attempts
        · have h5' : 5 ≤ e.Attempts + r := by omega
          have hWt : e.Written = true := by rw [hW]; simp [h5]
          simp [h5, h5', hWt]
        · have hWf : e.Written = false := by rw [hW]; simp [h5]
          by_cases h5' : 5 ≤ e.Attempts + r
          · simp [h5, h5', hWf]
          · simp [h5, h5', hWf])
      (by rw [hA2]; omega)
    simp only [ReadLine_updates]
    rw [hstep, hA2, Nat.add_assoc]

theorem sum_take_le (l : List Nat) (i : Nat) : (l.take i).sum ≤ l.sum := by
  conv_rhs => rw [← List.take_append_drop i l, List.sum_append]
  exact Nat.le_add_right _ _

/-! ## The purge loop and the order of the vector -/

theorem purgeBack_const (now : Int) (k : Nat) (L : List HostIP) :
    purgeBack (fun _ => now) k L = L.dropWhile (fun h => decide (h.Expire ≤ now)) := by
  induction L generalizing k with
  | nil => rfl
  | cons a t ih =>
    by_cases ha : a.Expire > now
    · have hn : ¬ a.Expire ≤ now := by omega
      simp [purgeBack, ha, List.dropWhile, hn]
    · have hn : a.Expire ≤ now := by omega
      simp [purgeBack, ha, List.dropWhile, hn, ih]

theorem dropWhile_eq_filter_of_ascending (now : Int) (L : List HostIP)
    (hs : L.Pairwise (fun a b => a.Expire ≤ b.Expire)) :
    L.dropWhile (fun h => decide (h.Expire ≤ now)) =
      L.filter (fun h => decide (h.Expire > now)) := by
  induction L with
  | nil => rfl
  | cons a t ih =>
    obtain ⟨hat, ht⟩ := List.pairwise_cons.mp hs
    by_cases ha : a.Expire ≤ now
    · have hn : ¬ a.Expire > now := by omega
      simp [List.dropWhile, ha, List.filter_cons, hn, ih ht]
    · have hn : a.Expire > now := by omega
      have hall : ∀ x ∈ t, decide (x.Expire > now) = true := by
        intro x hx
        have := hat x hx
        simp
        omega
      simp [List.dropWhile, ha, List.filter_cons, hn, List.filter_eq_self.mpr hall]

theorem purgeBack_suffix (time : Nat → Int) (k : Nat) (L : List HostIP) :
    purgeBack time k L <:+ L := by
  induction L generalizing k with
  | nil => exact List.suffix_refl _
  | cons a t ih =>
    unfold purgeBack
    split
    · exact List.suffix_refl _
    · exact (ih (k + 1)).trans (List.suffix_cons a t)

theorem purge_front (time : Nat → Int) (Hosts : List HostIP) :
    purge time Hosts <+: Hosts := by
  unfold purge
  have h := purgeBack_suffix time 0 Hosts.reverse
  have h2 := List.reverse_prefix.mpr h
  simpa using h2

theorem sortHosts_sorted (l : List HostIP) :
    (sortHosts l).Pairwise (fun a b => b.Expire ≤ a.Expire) := by
  haveI : IsTotal HostIP (fun a b => Closer b a = false) :=
    ⟨fun a b => by
      unfold Closer
      simp only [decide_eq_false_iff_not, not_lt, gt_iff_lt]
      exact le_total _ _⟩
  haveI : IsTrans HostIP (fun a b => Closer b a = false) :=
    ⟨fun a b c => by
      unfold Closer
      simp only [decide_eq_false_iff_not, not_lt, gt_iff_lt]
      intro h1 h2
      exact le_trans h2 h1⟩
  have h := List.sorted_insertionSort (fun a b : HostIP => Closer b a = false) l
  refine List.Pairwise.imp ?_ h
  intro a b hab
  unfold Closer at hab
  simpa using hab

theorem ReadLine_update_sorted (now : Int) (R : Nat) (st : ReadState) :
    (ReadLine_update now R st).Hosts.Pairwise (fun a b => b.Expire ≤ a.Expire) := by
  unfold ReadLine_update
  exact sortHosts_sorted _

theorem ReadLine_step_sorted (withIPv4 : Bool) (now : Int) (Line : List Char) (st : ReadState)
    (hs : st.Hosts.Pairwise (fun a b => b.Expire ≤ a.Expire)) :
    (ReadLine_step withIPv4 now Line st).Hosts.Pairwise (fun a b => b.Expire ≤ a.Expire) := by
  unfold ReadLine_step
  cases hv : IsValidLine withIPv4 Line with
  | none =>
    by_cases hla : st.LastAddress = []
    · simpa [hla] using hs
    · by_cases h0 : IsLastRepeated Line = 0
      · simpa [hla, h0] using hs
      · simpa [hla, h0] using ReadLine_update_sorted now (IsLastRepeated Line) st
  | some r => exact ReadLine_update_sorted _ _ _

theorem loopRun_sorted (withIPv4 : Bool) (evs : List LoopEvent) :
    ∀ st : ReadState, st.Hosts.Pairwise (fun a b => b.Expire ≤ a.Expire) →
      (loopRun withIPv4 evs st).Hosts.Pairwise (fun a b => b.Expire ≤ a.Expire) := by
  induction evs with
  | nil => intro st hs; exact hs
  | cons ev rest ih =>
    intro st hs
    apply ih
    cases ev with
    | enter => exact hs
    | line now Line => exact ReadLine_step_sorted withIPv4 now Line st hs
    | purge time => exact hs.sublist (purge_front time st.Hosts).sublist

theorem back_le_of_sorted (Hosts : List HostIP) (back : HostIP)
    (hs : Hosts.Pairwise (fun a b => b.Expire ≤ a.Expire))
    (hb : Hosts.getLast? = some back) : ∀ h ∈ Hosts, back.Expire ≤ h.Expire := by
  intro h hh
  obtain ⟨init, rfl⟩ := List.getLast?_eq_some_iff.mp hb
  rcases List.mem_append.mp hh with h1 | h1
  · exact (List.pairwise_append.mp hs).2.2 h h1 back (List.mem_singleton_self _)
  · rw [List.mem_singleton.mp h1]

/-! ## The call of `UpdateHost` in `ReadLine` -/

theorem ReadLine_step_eq_call (withIPv4 : Bool) (now : Int) (Line : List Char)
    (st : ReadState) :
    ReadLine_step withIPv4 now Line st =
      match ReadLine_call withIPv4 Line st with
      | none => { st with LastAddress := [] }
      | some (st1, Repeated) => ReadLine_update now Repeated st1 := by
  unfold ReadLine_step ReadLine_call
  cases hv : IsValidLine withIPv4 Line with
  | none =>
    by_cases hla : st.LastAddress = []
    · simp [hla]
    · by_cases h0 : IsLastRepeated Line = 0
      · simp [hla, h0]
      · simp [hla, h0]
  | some r => rfl

/-- An address that `ExtractData` accepts is not empty. -/
theorem ExtractData_address_ne_nil {withIPv4 : Bool} {mem : List Char}
    {Begin Address AddressLength : Nat}
    (h : ExtractData withIPv4 mem Begin = some (Address, AddressLength)) :
    addressText mem Address AddressLength ≠ [] := by
  have hsz1 : sizeof " for " = 6 := rfl
  have hsz2 : sizeof " from " - 1 = 6 := rfl
  cases hU : strstr mem Begin " for " with
  | none => simp [ExtractData, hU] at h
  | some User =>
    cases hH : strstr mem (User + 6) " from " with
    | none => simp [ExtractData, hU, hsz1, hH] at h
    | some Host =>
      cases hE : findSub " port ".toList (cstr mem (Host + 6)) with
      | none =>
        have hE1 : strstr mem (Host + 6) " port " = none := by
          unfold strstr; rw [hE]; rfl
        simp [ExtractData, hU, hsz1, hsz2, hH, hE1] at h
      | some k =>
        rw [ExtractData_eq_of_markers hU hH hE] at h
        split at h
        · cases h
        · rename_i hcond
          simp only [Option.some.injEq, Prod.mk.injEq] at h
          obtain ⟨hA, hL⟩ := h
          rw [← hA, ← hL]
          have hk : k ≤ (cstr mem (Host + 6)).length := by
            rcases findSub_le_length hE with h1 | h1
            · omega
            · cases h1
          unfold addressText
          rw [take_cstr mem (Host + 6) k hk]
          intro hnil
          rw [hnil] at hcond
          simp at hcond

theorem IsValidLine_extract {withIPv4 : Bool} {Line : List Char}
    {Address AddressLength Attempts : Nat}
    (h : IsValidLine withIPv4 Line = some (Address, AddressLength, Attempts)) :
    ∃ Begin, ExtractData withIPv4 Line Begin = some (Address, AddressLength) := by
  unfold IsValidLine at h
  cases hs : strstr Line 0 " sshd[" with
  | none => simp [hs] at h
  | some SSHd =>
    simp only [hs] at h
    cases hf : strstr Line SSHd ": Failed " with
    | some Method =>
      simp only [hf] at h
      cases hx : ExtractData withIPv4 Line (Method + sizeof ": Failed ") with
      | none => simp [hx] at h
      | some r =>
        obtain ⟨a, l⟩ := r
        simp only [hx, Option.some.injEq, Prod.mk.injEq] at h
        exact ⟨_, by rw [hx, h.1, h.2.1]⟩
    | none =>
      simp only [hf] at h
      unfold IsMessageRepeated at h
      simp only [hs] at h
      cases hr : strstr Line SSHd ": message repeated " with
      | none => simp [hr] at h
      | some Repeated =>
        simp only [hr] at h
        cases hm : strstr Line Repeated " times: [ Failed " with
        | none => simp [hm] at h
        | some Method =>
          simp only [hm] at h
          cases hx : ExtractData withIPv4 Line (Method + sizeof " times: [ Failed ") with
          | none => simp [hx] at h
          | some r =>
            obtain ⟨a, l⟩ := r
            simp only [hx, Option.some.injEq, Prod.mk.injEq] at h
            exact ⟨_, by rw [hx, h.1, h.2.1]⟩

/-! ## Reading lines into the buffer -/

theorem ReadLine_feed_eq_steps (withIPv4 : Bool) (time : Nat → Int) (input : List Char) :
    ∀ (Line : List Char) (Read k : Nat) (st : ReadState),
      ReadLine_feed withIPv4 time input Line Read k st =
        ReadLine_steps withIPv4 time k (ReadLine_lines input Line Read) st := by
  induction input with
  | nil =>
    intro Line Read k st
    by_cases hr : Read = 0
    · simp [ReadLine_feed, ReadLine_lines, ReadLine_steps, hr]
    · simp [ReadLine_feed, ReadLine_lines, ReadLine_steps, hr]
  | cons c rest ih =>
    intro Line Read k st
    by_cases hc : c = NL
    · simp only [ReadLine_feed, ReadLine_lines, hc, if_true, ReadLine_steps]
      exact ih _ _ _ _
    · by_cases hr : Read + 1 < LineSize
      · simp only [ReadLine_feed, ReadLine_lines, hc, if_false, hr, if_true]
        exact ih _ _ _ _
      · simp only [ReadLine_feed, ReadLine_lines, hc, if_false, hr, ReadLine_steps]
        exact ih _ _ _ _

theorem set_append_length (pre post : List Char) (p c : Char) :
    (pre ++ p :: post).set pre.length c = pre ++ c :: post := by
  induction pre with
  | nil => rfl
  | cons a t ih => simp [List.set, ih]

/-- Bytes that are not newlines and do not fill the buffer are stored one after the
other. -/
theorem ReadLine_lines_store (l : List Char) :
    ∀ (pre post rest : List Char), NL ∉ l → pre.length + l.length < LineSize →
      l.length ≤ post.length →
      ReadLine_lines (l ++ rest) (pre ++ post) pre.length =
        ReadLine_lines rest (pre ++ l ++ post.drop l.length) (pre.length + l.length) := by
  induction l with
  | nil =>
    intro pre post rest _ _ _
    simp
  | cons c t ih =>
    intro pre post rest hnl hlen hpost
    cases post with
    | nil => simp at hpost
    | cons p post2 =>
      have hc : c ≠ NL := fun h => hnl (by simp [h])
      have ht : NL ∉ t := fun h => hnl (List.mem_cons_of_mem _ h)
      have hr : pre.length + 1 < LineSize := by
        simp only [List.length_cons] at hlen
        omega
      simp only [List.cons_append, ReadLine_lines, hc, if_false, hr, if_true,
        set_append_length]
      have hstep : ReadLine_lines (t ++ rest) ((pre ++ [c]) ++ post2) (pre ++ [c]).length =
          ReadLine_lines rest ((pre ++ [c]) ++ t ++ post2.drop t.length)
            ((pre ++ [c]).length + t.length) :=
        ih (pre ++ [c]) post2 rest ht
          (by
            simp only [List.length_append, List.length_cons, List.length_nil] at hlen ⊢
            omega)
          (by simpa using hpost)
      have e1 : (pre ++ [c]).length = pre.length + 1 := by simp
      have e2 : pre.length + (c :: t).length = pre.length + 1 + t.length := by
        simp only [List.length_cons]
        omega
      have e3 : pre ++ [c] ++ post2 = pre ++ c :: post2 := by simp
      have e4 : pre ++ [c] ++ t ++ post2.drop t.length =
          pre ++ c :: t ++ List.drop (c :: t).length (p :: post2) := by simp
      rw [e1, e3, e4] at hstep
      rw [e2]
      exact hstep

theorem cstr_of_terminated (l tail : List Char) (h : NUL ∉ l) :
    cstr (l ++ NUL :: tail) 0 = l := by
  unfold cstr
  simp only [List.drop_zero]
  induction l with
  | nil => simp [List.takeWhile_cons]
  | cons a t ih =>
    have ha : a ≠ NUL := fun hh => h (by simp [hh])
    have ht : NUL ∉ t := fun hh => h (List.mem_cons_of_mem _ hh)
    simp [List.takeWhile_cons, ha, ih ht]
/-! ## Claims on the classifier -/

/-- C1: a line without the substring " sshd[" is no event. `IsValidLine` returns false,
`IsLastRepeated` returns 0, and the per-line step of `ReadLine` leaves the registry (and the
list of `AddToDeny` calls) as it was. -/
theorem C1_untagged_line_is_no_event (withIPv4 : Bool) (Line : List Char)
    (h : ¬ " sshd[".toList <:+: cstr Line 0) :
    IsValidLine withIPv4 Line = none ∧ IsLastRepeated Line = 0 ∧
    ∀ (now : Int) (st : ReadState),
      (ReadLine_step withIPv4 now Line st).Hosts = st.Hosts ∧
      (ReadLine_step withIPv4 now Line st).Denied = st.Denied := by
  have hs : strstr Line 0 " sshd[" = none :=
    strstr_eq_none_of_not_infix (Nat.zero_le _) (by simpa using h)
  have hv : IsValidLine withIPv4 Line = none := by simp [IsValidLine, hs]
  have hl : IsLastRepeated Line = 0 := by simp [IsLastRepeated, hs]
  refine ⟨hv, hl, ?_⟩
  intro now st
  unfold ReadLine_step
  rw [hv, hl]
  by_cases hla : st.LastAddress = [] <;> simp [hla]

/-- Witness of C1 on a line of another daemon. -/
theorem C1_untagged_line_is_no_event_witness :
    ¬ " sshd[".toList <:+: cstr cronLine 0 ∧
    IsValidLine false cronLine = none :=
  ⟨by decide, (C1_untagged_line_is_no_event false _ (by decide)).1⟩

/-- C2 (amended): a line in which " sshd[" is followed by ": Failed ", then, at least one
character after the end of ": Failed ", by " for ", then, at least one character after the
end of that " for ", by " from ", then by " port " (each the first occurrence from where
the search starts), and whose text between " from " and " port " contains a colon:
`IsValidLine` returns true with `Attempts = 1`, and the address it hands out is exactly the
text between " from " and " port ". -/
theorem C2_failed_line_is_classified (withIPv4 : Bool) (Line : List Char)
    (sshd failed for_ from_ port : Nat)
    (h1 : FirstOccFrom " sshd[" (cstr Line 0) 0 sshd)
    (h2 : FirstOccFrom ": Failed " (cstr Line 0) (sshd + 6) failed)
    (h3 : FirstOccFrom " for " (cstr Line 0) (failed + 9 + 1) for_)
    (h4 : FirstOccFrom " from " (cstr Line 0) (for_ + 5 + 1) from_)
    (h5 : FirstOccFrom " port " (cstr Line 0) (from_ + 6) port)
    (h6 : ':' ∈ between (cstr Line 0) (from_ + 6) port) :
    IsValidLine withIPv4 Line = some (from_ + 6, port - (from_ + 6), 1) ∧
    addressText Line (from_ + 6) (port - (from_ + 6)) =
      between (cstr Line 0) (from_ + 6) port := by
  have hs1 := strstr_eq_some_of_firstOcc (by decide) h1
  have h2' : FirstOccFrom ": Failed " (cstr Line 0) sshd failed :=
    firstOccFrom_of_after_tag " sshd[" h1.2.1 (by decide) (by decide) h2
  have hs2 := strstr_eq_some_of_firstOcc (by decide) h2'
  have hx := ExtractData_of_firstOcc withIPv4 h3 h4 h5 (Or.inl h6)
  have hsz : sizeof ": Failed " = 10 := rfl
  refine ⟨?_, hx.2⟩
  unfold IsValidLine
  simp only [hs1, hs2, hsz]
  rw [show failed + 10 = failed + 9 + 1 by omega, hx.1]

/-- Witness of C2: the failure line of the specification gives the address "2001:db8::1"
and the count 1. -/
theorem C2_failed_line_is_classified_witness :
    IsValidLine false failedLine = some (55, 11, 1) ∧
    addressText failedLine 55 11 = "2001:db8::1".toList :=
  ⟨(C2_failed_line_is_classified false failedLine 3 13 30 49 66
      (by decide) (by decide) (by decide) (by decide) (by decide) (by decide)).1,
   by decide⟩

/-- C2 as stated fails: in `noMethodLine` every marker is found right after the end of the
one before it and the address holds a colon, yet `IsValidLine` returns false, and so it does
on `noUserLine`. The code resumes its search one character after ": Failed " and after
" for ". -/
theorem C2_counterexample :
    FirstOccFrom " sshd[" (cstr noMethodLine 0) 0 3 ∧
    FirstOccFrom ": Failed " (cstr noMethodLine 0) (3 + 6) 13 ∧
    FirstOccFrom " for " (cstr noMethodLine 0) (13 + 9) 22 ∧
    FirstOccFrom " from " (cstr noMethodLine 0) (22 + 5) 28 ∧
    FirstOccFrom " port " (cstr noMethodLine 0) (28 + 6) 45 ∧
    ':' ∈ between (cstr noMethodLine 0) (28 + 6) 45 ∧
    IsValidLine false noMethodLine = none ∧ IsValidLine true noMethodLine = none ∧
    FirstOccFrom " sshd[" (cstr noUserLine 0) 0 3 ∧
    FirstOccFrom ": Failed " (cstr noUserLine 0) (3 + 6) 13 ∧
    FirstOccFrom " for " (cstr noUserLine 0) (13 + 9) 30 ∧
    FirstOccFrom " from " (cstr noUserLine 0) (30 + 5) 35 ∧
    FirstOccFrom " port " (cstr noUserLine 0) (35 + 6) 52 ∧
    ':' ∈ between (cstr noUserLine 0) (35 + 6) 52 ∧
    IsValidLine false noUserLine = none ∧ IsValidLine true noUserLine = none := by
  decide

/-- C3 (amended): for every N that fits `long unsigned int` and every line that contains
" sshd[", has no ": Failed " after it, and has ": message repeated " followed by the decimal
digits of N and then " times: [ Failed ", followed by " for " starting at least one
character after the end of " times: [ Failed ", then by " from " starting at least one
character after the end of that " for ", then by " port ", with between " from " and
" port " a valid address (a ':', or in the `WITH_IPV4` build a ':' or a '.'), `IsValidLine`
returns true with `Attempts = N` and the address is the text between " from " and
" port ". -/
theorem C3_repeated_line_is_classified (withIPv4 : Bool) (Line : List Char)
    (N sshd rep for_ from_ port : Nat)
    (hN : N ≤ ULONG_MAX)
    (h1 : FirstOccFrom " sshd[" (cstr Line 0) 0 sshd)
    (h2 : ¬ ": Failed ".toList <:+: (cstr Line 0).drop (sshd + 6))
    (h3 : FirstOccFrom ": message repeated " (cstr Line 0) (sshd + 6) rep)
    (h4 : (Nat.toDigits 10 N ++ " times: [ Failed ".toList) <+: (cstr Line 0).drop (rep + 19))
    (h5 : FirstOccFrom " for " (cstr Line 0)
      (rep + 19 + (Nat.toDigits 10 N).length + 17 + 1) for_)
    (h6 : FirstOccFrom " from " (cstr Line 0) (for_ + 5 + 1) from_)
    (h7 : FirstOccFrom " port " (cstr Line 0) (from_ + 6) port)
    (h8 : ':' ∈ between (cstr Line 0) (from_ + 6) port ∨
      (withIPv4 = true ∧ '.' ∈ between (cstr Line 0) (from_ + 6) port)) :
    IsValidLine withIPv4 Line = some (from_ + 6, port - (from_ + 6), N) ∧
    addressText Line (from_ + 6) (port - (from_ + 6)) =
      between (cstr Line 0) (from_ + 6) port := by
  have hs1 := strstr_eq_some_of_firstOcc (by decide) h1
  have hsshd := occursAt_lt_length (by decide) h1.2.1
  have hs2 : strstr Line sshd ": Failed " = none := by
    apply strstr_eq_none_of_forall (by omega)
    intro j hj hocc
    by_cases hjt : j < sshd + 6
    · exact not_occursAt_inside h1.2.1 (by decide) (by decide) hj hjt hocc
    · exact h2 (infix_drop_of_occursAt (by omega) hocc)
  have h3' : FirstOccFrom ": message repeated " (cstr Line 0) sshd rep :=
    firstOccFrom_of_after_tag " sshd[" h1.2.1 (by decide) (by decide) h3
  have hs3 := strstr_eq_some_of_firstOcc (by decide) h3'
  have hs4 := strstr_eq_some_of_firstOcc (by decide) (firstOcc_times_failed h3.2.1 h4)
  have hx := ExtractData_of_firstOcc withIPv4 h5 h6 h7 h8
  have hrep := occursAt_lt_length (by decide) h3.2.1
  have hcs : cstr Line (rep + 19) =
      Nat.toDigits 10 N ++ ' ' :: ("times: [ Failed ".toList ++
        ((cstr Line 0).drop (rep + 19)).drop
          (Nat.toDigits 10 N ++ " times: [ Failed ".toList).length) := by
    rw [cstr_eq_drop Line (rep + 19) (by
      have : (": message repeated ".toList).length = 19 := rfl
      omega)]
    obtain ⟨r, hr⟩ := h4
    rw [← hr, List.drop_left]
    simp [List.append_assoc]
  have hnum : strtoul Line (rep + 19) = N := strtoul_toDigits hN (by decide) hcs
  have hsz1 : sizeof " times: [ Failed " = 18 := rfl
  have hsz2 : sizeof ": message repeated " - 1 = 19 := rfl
  refine ⟨?_, hx.2⟩
  unfold IsValidLine IsMessageRepeated
  simp only [hs1, hs2, hs3, hs4, hsz1, hsz2, hnum]
  rw [show rep + 19 + (Nat.toDigits 10 N).length + 18 =
    rep + 19 + (Nat.toDigits 10 N).length + 17 + 1 by omega, hx.1]

/-- Witness of C3: in the `WITH_IPV4` build the folded line of the specification gives the
address "10.0.0.5" and the count 7. -/
theorem C3_repeated_line_is_classified_witness :
    IsValidLine true repeatedLine = some (70, 8, 7) ∧
    addressText repeatedLine 70 8 = "10.0.0.5".toList :=
  ⟨(C3_repeated_line_is_classified true repeatedLine 7 3 13 58 64 78
      (by decide) (by decide) (by decide) (by decide) (by decide) (by decide) (by decide)
      (by decide) (Or.inr ⟨rfl, by decide⟩)).1,
   by decide⟩

/-- C3 as stated fails: in `repeatedNoMethodLine` the count 7 and " times: [ Failed " follow
": message repeated ", " for " follows at once, " from " and " port " come later and the
address "10.0.0.5" is valid in the `WITH_IPV4` build, yet `IsValidLine` returns false. -/
theorem C3_counterexample :
    FirstOccFrom " sshd[" (cstr repeatedNoMethodLine 0) 0 3 ∧
    ¬ ": Failed ".toList <:+: (cstr repeatedNoMethodLine 0).drop (3 + 6) ∧
    FirstOccFrom ": message repeated " (cstr repeatedNoMethodLine 0) (3 + 6) 13 ∧
    (Nat.toDigits 10 7 ++ " times: [ Failed ".toList) <+:
      (cstr repeatedNoMethodLine 0).drop (13 + 19) ∧
    FirstOccFrom " for " (cstr repeatedNoMethodLine 0)
      (13 + 19 + (Nat.toDigits 10 7).length + 17) 50 ∧
    FirstOccFrom " from " (cstr repeatedNoMethodLine 0) (50 + 5) 56 ∧
    FirstOccFrom " port " (cstr repeatedNoMethodLine 0) (56 + 6) 70 ∧
    '.' ∈ between (cstr repeatedNoMethodLine 0) (56 + 6) 70 ∧
    IsValidLine true repeatedNoMethodLine = none := by
  decide

/-- C4: the address filter of `ExtractData`. When it returns true, the `AddressLength`
characters starting at `*Address` contain a ':' (or, in the `WITH_IPV4` build, a ':' or a
'.') and do not contain " port ". When the three markers are found and the text between
the end of " from " and " port " holds no ':' (and, in the `WITH_IPV4` build, no '.'
either), it returns false. -/
theorem C4_address_filter (withIPv4 : Bool) (mem : List Char) (Begin : Nat) :
    (∀ Address AddressLength : Nat,
      ExtractData withIPv4 mem Begin = some (Address, AddressLength) →
        (':' ∈ (mem.drop Address).take AddressLength ∨
          (withIPv4 = true ∧ '.' ∈ (mem.drop Address).take AddressLength)) ∧
        ¬ " port ".toList <:+: (mem.drop Address).take AddressLength) ∧
    (∀ User Host End : Nat,
      strstr mem Begin " for " = some User →
      strstr mem (User + 6) " from " = some Host →
      strstr mem (Host + 6) " port " = some End →
      ':' ∉ between mem (Host + 6) End →
      (withIPv4 = true → '.' ∉ between mem (Host + 6) End) →
        ExtractData withIPv4 mem Begin = none) := by
  constructor
  · intro Address AddressLength hres
    cases hU : strstr mem Begin " for " with
    | none => simp [ExtractData, hU] at hres
    | some User =>
      cases hH : strstr mem (User + 6) " from " with
      | none =>
        have hsz1 : sizeof " for " = 6 := rfl
        simp [ExtractData, hU, hsz1, hH] at hres
      | some Host =>
        cases hE : findSub " port ".toList (cstr mem (Host + 6)) with
        | none =>
          have hsz1 : sizeof " for " = 6 := rfl
          have hsz2 : sizeof " from " - 1 = 6 := rfl
          have hE1 : strstr mem (Host + 6) " port " = none := by
            unfold strstr; rw [hE]; rfl
          simp [ExtractData, hU, hsz1, hsz2, hH, hE1] at hres
        | some k =>
          rw [ExtractData_eq_of_markers hU hH hE] at hres
          split at hres
          · cases hres
          · rename_i hcond
            simp only [Option.some.injEq, Prod.mk.injEq] at hres
            obtain ⟨hA, hL⟩ := hres
            rw [← hA, ← hL]
            clear hA hL Address AddressLength
            rename' k => AddressLength
            have hk : AddressLength ≤ (cstr mem (Host + 6)).length := by
              rcases findSub_le_length hE with h | h
              · omega
              · cases h
            constructor
            · simp only [Bool.and_eq_true, Bool.or_eq_true, Bool.not_eq_true',
                decide_eq_true_eq, not_and, not_or] at hcond
              by_cases hc : ':' ∈ (mem.drop (Host + 6)).take AddressLength
              · exact Or.inl hc
              · right
                have := hcond hc
                cases withIPv4 with
                | false => simp at this
                | true => simpa using this
            · rw [← take_cstr mem (Host + 6) AddressLength hk]
              exact findSub_not_infix_take (by decide) hE
  · intro User Host End hU hH hE hc hd
    obtain ⟨k, hk, rfl⟩ := (strstr_eq_some_iff _ _ _ _).mp hE
    rw [ExtractData_eq_of_markers hU hH hk]
    have hb : between mem (Host + 6) (k + (Host + 6)) = (mem.drop (Host + 6)).take k := by
      simp [between]
    rw [hb] at hc hd
    cases withIPv4 with
    | false => simp [hc]
    | true => simp [hc, hd rfl]

/-- Witness of C4: on `failedLine` the address returned holds a ':' and no " port "; on
`namedHostLine` the markers are found but the address "localhost" has neither ':' nor '.',
and `ExtractData` returns false in both builds. -/
theorem C4_address_filter_witness :
    ExtractData false failedLine 23 = some (55, 11) ∧
    (':' ∈ (failedLine.drop 55).take 11 ∨
      (false = true ∧ '.' ∈ (failedLine.drop 55).take 11)) ∧
    ¬ " port ".toList <:+: (failedLine.drop 55).take 11 ∧
    strstr namedHostLine 23 " for " = some 30 ∧
    strstr namedHostLine (30 + 6) " from " = some 36 ∧
    strstr namedHostLine (36 + 6) " port " = some 51 ∧
    ExtractData true namedHostLine 23 = none :=
  ⟨by decide,
   ((C4_address_filter false failedLine 23).1 55 11 (by decide)).1,
   ((C4_address_filter false failedLine 23).1 55 11 (by decide)).2,
   by decide, by decide, by decide,
   (C4_address_filter true namedHostLine 23).2 30 36 51 (by decide) (by decide) (by decide)
     (by decide) (fun _ => by decide)⟩

/-- C5 (amended): for every N with 0 < N ≤ ULONG_MAX and every line in which, after the
service tag " sshd[", the first ": last message repeated " is followed by the decimal
digits of N and " times", `IsLastRepeated` returns N; a line that lacks the marker
": last message repeated ", or lacks a " times" after it, gives 0. -/
theorem C5_last_repeated_count (Line : List Char) :
    (∀ N sshd times : Nat, 0 < N → N ≤ ULONG_MAX →
      FirstOccFrom " sshd[" (cstr Line 0) 0 sshd →
      FirstOccFrom ": last message repeated " (cstr Line 0) (sshd + 6) times →
      (Nat.toDigits 10 N ++ " times".toList) <+: (cstr Line 0).drop (times + 24) →
        IsLastRepeated Line = N) ∧
    (¬ ": last message repeated ".toList <:+: cstr Line 0 → IsLastRepeated Line = 0) ∧
    (∀ sshd times : Nat,
      FirstOccFrom " sshd[" (cstr Line 0) 0 sshd →
      FirstOccFrom ": last message repeated " (cstr Line 0) (sshd + 6) times →
      ¬ " times".toList <:+: (cstr Line 0).drop (times + 24) →
        IsLastRepeated Line = 0) := by
  have hsz : sizeof ": last message repeated " - 1 = 24 := rfl
  have hmark : ∀ sshd times : Nat,
      FirstOccFrom " sshd[" (cstr Line 0) 0 sshd →
      FirstOccFrom ": last message repeated " (cstr Line 0) (sshd + 6) times →
      strstr Line 0 " sshd[" = some sshd ∧
      strstr Line sshd ": last message repeated " = some times ∧
      times + 24 ≤ (cstr Line 0).length := by
    intro sshd times h1 h2
    refine ⟨strstr_eq_some_of_firstOcc (by decide) h1, ?_, ?_⟩
    · exact strstr_eq_some_of_firstOcc (by decide)
        (firstOccFrom_of_after_tag " sshd[" h1.2.1 (by decide) (by decide) h2)
    · exact occursAt_lt_length (by decide) h2.2.1
  refine ⟨?_, ?_, ?_⟩
  · intro N sshd times _ hN h1 h2 h3
    obtain ⟨hs1, hs2, hlen⟩ := hmark sshd times h1 h2
    have hs3 : strstr Line (times + 24) " times" ≠ none := by
      intro hnone
      unfold strstr at hnone
      rw [cstr_eq_drop Line (times + 24) hlen] at hnone
      have hn : findSub " times".toList ((cstr Line 0).drop (times + 24)) = none := by
        cases hf : findSub " times".toList ((cstr Line 0).drop (times + 24)) with
        | none => rfl
        | some k => rw [hf] at hnone; cases hnone
      apply (findSub_eq_none_iff _ _).mp hn
      obtain ⟨r, hr⟩ := h3
      exact ⟨Nat.toDigits 10 N, r, by rw [← hr]⟩
    have hcs : cstr Line (times + 24) =
        Nat.toDigits 10 N ++ ' ' :: ("times".toList ++
          ((cstr Line 0).drop (times + 24)).drop
            (Nat.toDigits 10 N ++ " times".toList).length) := by
      rw [cstr_eq_drop Line (times + 24) hlen]
      obtain ⟨r, hr⟩ := h3
      rw [← hr, List.drop_left]
      simp [List.append_assoc]
    have hnum : strtoul Line (times + 24) = N := strtoul_toDigits hN (by decide) hcs
    unfold IsLastRepeated
    simp only [hs1, hs2, hsz]
    cases hf : strstr Line (times + 24) " times" with
    | none => exact absurd hf hs3
    | some e => exact hnum
  · intro hno
    unfold IsLastRepeated
    cases hs1 : strstr Line 0 " sshd[" with
    | none => rfl
    | some sshd =>
      obtain ⟨k, hk, hkp⟩ := (strstr_eq_some_iff _ _ _ _).mp hs1
      have hsl : sshd ≤ (cstr Line 0).length := by
        rcases findSub_le_length hk with h | h
        · omega
        · cases h
      have hs2 : strstr Line sshd ": last message repeated " = none :=
        strstr_eq_none_of_not_infix hsl
          (fun h => hno (h.trans (List.drop_suffix _ _).isInfix))
      simp only [hs2]
  · intro sshd times h1 h2 h3
    obtain ⟨hs1, hs2, hlen⟩ := hmark sshd times h1 h2
    have hs3 : strstr Line (times + 24) " times" = none :=
      strstr_eq_none_of_not_infix hlen h3
    unfold IsLastRepeated
    simp only [hs1, hs2, hsz, hs3]

/-- Witness of C5: the continuation line of the specification gives 3; a line without the
marker gives 0. -/
theorem C5_last_repeated_count_witness :
    IsLastRepeated lastRepeatedLine = 3 ∧ IsLastRepeated failedLine = 0 :=
  ⟨(C5_last_repeated_count lastRepeatedLine).1 3 3 13 (by decide) (by decide) (by decide)
      (by decide) (by decide),
   (C5_last_repeated_count failedLine).2.1 (by decide)⟩

/-- C5 as stated fails for a count that does not fit `long unsigned int`: the line
`lastRepeatedHugeLine` has the form of the claim with N = 2 ^ 64, and `IsLastRepeated`
returns `ULONG_MAX`, the value `strtoul` gives on overflow. -/
theorem C5_counterexample :
    FirstOccFrom " sshd[" (cstr lastRepeatedHugeLine 0) 0 3 ∧
    FirstOccFrom ": last message repeated " (cstr lastRepeatedHugeLine 0) (3 + 6) 13 ∧
    (Nat.toDigits 10 (2 ^ 64) ++ " times".toList) <+:
      (cstr lastRepeatedHugeLine 0).drop (13 + 24) ∧
    IsLastRepeated lastRepeatedHugeLine = 2 ^ 64 - 1 ∧
    IsLastRepeated lastRepeatedHugeLine ≠ 2 ^ 64 := by
  decide

/-! ## Claims on the per-line step -/

/-- C7 (amended): on a registry whose first entry with `Address = Host` is `e`, `UpdateHost`
returns false. Provided `Attempts + n` fits `long unsigned int`, the entry gets
`Attempts + n`; if that is at least 5 and `Written` was false, exactly one `AddToDeny` call
is made, for that address, `Written` becomes true and, provided it fits `time_t`, `Expire`
becomes `Expire + 60`; otherwise no call is made, `Written` is unchanged and, provided it
fits `time_t`, `Expire` becomes `Expire + n * 1 * 60`. -/
theorem C7_update_tracked_host (Host : List Char) (pre post : List HostIP) (e : HostIP)
    (n : Nat) (hpre : ∀ x ∈ pre, x.Address ≠ Host) (he : e.Address = Host)
    (hA : e.Attempts + n ≤ ULONG_MAX) (hmin : TIME_MIN ≤ e.Expire) :
    (UpdateHost Host (pre ++ e :: post) n).InsertRequired = false ∧
    ((e.Attempts + n ≥ 5 ∧ e.Written = false) → e.Expire + 60 ≤ TIME_MAX →
      (UpdateHost Host (pre ++ e :: post) n).Hosts =
        pre ++ { e with Attempts := e.Attempts + n, Expire := e.Expire + 60,
                        Written := true } :: post ∧
      (UpdateHost Host (pre ++ e :: post) n).Denied = [Host]) ∧
    (¬ (e.Attempts + n ≥ 5 ∧ e.Written = false) → e.Expire + n * 1 * 60 ≤ TIME_MAX →
      (UpdateHost Host (pre ++ e :: post) n).Hosts =
        pre ++ { e with Attempts := e.Attempts + n,
                        Expire := e.Expire + n * 1 * 60 } :: post ∧
      (UpdateHost Host (pre ++ e :: post) n).Denied = []) := by
  rw [UpdateHost_append Host pre (e :: post) n hpre]
  have hw : wrapUL (e.Attempts + n) = e.Attempts + n := wrapUL_of_le hA
  refine ⟨?_, ?_, ?_⟩
  · simp only [UpdateHost, he, if_true]
    split <;> rfl
  · intro hc hmax
    have h60 : toTime (e.Expire + 60) = e.Expire + 60 :=
      toTime_of_range (by unfold TIME_MIN at *; omega) hmax
    have hc' : e.Attempts + n ≥ MaxAttempts ∧ e.Written = false := hc
    simp only [UpdateHost, he, if_true, hw, hc', and_self, h60]
  · intro hc hmax
    have hc' : ¬ (e.Attempts + n ≥ MaxAttempts ∧ e.Written = false) := hc
    have hexp := expire_add_penalty hmin hmax
    simp only [UpdateHost, he, if_true, hw, hc', if_false, hexp]
    simp

/-- Witness of C7: four more failures of the host of `sampleEntry`, found behind
`otherEntry`, reach the threshold. -/
theorem C7_update_tracked_host_witness :
    (UpdateHost "2001:db8::1".toList [otherEntry, sampleEntry] 4).Hosts =
      [otherEntry, { sampleEntry with Attempts := 5, Expire := 1700000360, Written := true }] ∧
    (UpdateHost "2001:db8::1".toList [otherEntry, sampleEntry] 4).Denied =
      ["2001:db8::1".toList] :=
  ((C7_update_tracked_host "2001:db8::1".toList [otherEntry] [] sampleEntry 4
      (by decide) (by decide) (by decide) (by decide)).2.1
    ⟨by decide, by decide⟩ (by decide))

/-- C7 as stated fails when the sum does not fit: with `Attempts = 1` and the repeat count
`ULONG_MAX` the entry is left with `Attempts = 0`, not `Attempts + n`, no `AddToDeny` call
is made although `Attempts + n ≥ 5` and `Written` was false, and `Expire` moves back by 60
instead of forward by `n * 60`. -/
theorem C7_counterexample :
    sampleEntry.Attempts + hugeCount ≥ 5 ∧ sampleEntry.Written = false ∧
    hugeCount ≤ ULONG_MAX ∧
    UpdateHost "2001:db8::1".toList [sampleEntry] hugeCount =
      { InsertRequired := false,
        Hosts := [{ sampleEntry with Attempts := 0, Expire := 1700000240 }],
        Denied := [] } := by
  decide

/-- C8: when no entry has `Address = Host`, `UpdateHost` returns true, makes no `AddToDeny`
call and leaves the registry as it is. When the registry holds `Host`, only the first entry
with that address changes (its address and first-seen time stay); the entries before and
after it, their number and their order are unchanged. -/
theorem C8_update_frame (Host : List Char) (Hosts : List HostIP) (n : Nat) :
    ((∀ x ∈ Hosts, x.Address ≠ Host) →
      UpdateHost Host Hosts n = { InsertRequired := true, Hosts := Hosts, Denied := [] }) ∧
    (∀ (pre post : List HostIP) (e : HostIP), Hosts = pre ++ e :: post →
      (∀ x ∈ pre, x.Address ≠ Host) → e.Address = Host →
      ∃ e2 : HostIP, (UpdateHost Host Hosts n).Hosts = pre ++ e2 :: post ∧
        e2.Address = e.Address ∧ e2.FirstSeen = e.FirstSeen ∧
        (UpdateHost Host Hosts n).Hosts.length = Hosts.length) := by
  constructor
  · intro hno
    have := UpdateHost_append Host Hosts [] n hno
    simpa [UpdateHost] using this
  · intro pre post e hH hpre he
    subst hH
    rw [UpdateHost_append Host pre (e :: post) n hpre]
    simp only [UpdateHost, he, if_true]
    split
    · exact ⟨_, rfl, rfl, rfl, by simp⟩
    · exact ⟨_, rfl, rfl, rfl, by simp⟩

/-- Witness of C8: `otherEntry` is untouched by an update of the host of `sampleEntry`, and
an update for a host that is not tracked changes nothing. -/
theorem C8_update_frame_witness :
    UpdateHost "2001:db8::3".toList [otherEntry, sampleEntry] 1 =
      { InsertRequired := true, Hosts := [otherEntry, sampleEntry], Denied := [] } ∧
    ∃ e2 : HostIP,
      (UpdateHost "2001:db8::1".toList [otherEntry, sampleEntry] 1).Hosts =
        [otherEntry] ++ e2 :: [] ∧
      e2.Address = sampleEntry.Address ∧ e2.FirstSeen = sampleEntry.FirstSeen ∧
      (UpdateHost "2001:db8::1".toList [otherEntry, sampleEntry] 1).Hosts.length =
        [otherEntry, sampleEntry].length :=
  ⟨(C8_update_frame "2001:db8::3".toList [otherEntry, sampleEntry] 1).1 (by decide),
   (C8_update_frame "2001:db8::1".toList [otherEntry, sampleEntry] 1).2
      [otherEntry] [] sampleEntry rfl (by decide) (by decide)⟩

/-- C9 (amended): the entry built by `HostIP(now, a, n, AlreadyWritten)` has
`FirstSeen = now`, `Address = a`, `Attempts = n` and `Written = false` whatever
`AlreadyWritten` is, and `Expire = now + n * 1 * 5 * 60` provided that value fits
`time_t`. -/
theorem C9_new_entry (now : Int) (a : List Char) (n : Nat) (AlreadyWritten : Bool) :
    (HostIP.construct now a n AlreadyWritten).FirstSeen = now ∧
    (HostIP.construct now a n AlreadyWritten).Address = a ∧
    (HostIP.construct now a n AlreadyWritten).Attempts = n ∧
    (HostIP.construct now a n AlreadyWritten).Written = false ∧
    (TIME_MIN ≤ now → now + n * 1 * 5 * 60 ≤ TIME_MAX →
      (HostIP.construct now a n AlreadyWritten).Expire = now + n * 1 * 5 * 60) := by
  refine ⟨rfl, rfl, rfl, rfl, ?_⟩
  intro h1 h2
  exact expire_initial h1 h2

/-- Witness of C9: three failures at time 1700000000 expire 900 seconds later. -/
theorem C9_new_entry_witness :
    (HostIP.construct 1700000000 "2001:db8::1".toList 3 true).Expire = 1700000900 ∧
    (HostIP.construct 1700000000 "2001:db8::1".toList 3 true).Written = false :=
  ⟨(C9_new_entry 1700000000 "2001:db8::1".toList 3 true).2.2.2.2 (by decide) (by decide),
   (C9_new_entry 1700000000 "2001:db8::1".toList 3 true).2.2.2.1⟩

/-- C9 as stated fails when the product does not fit: for the repeat count `ULONG_MAX` at
time 1700000000 the new entry expires at 1699999700, 300 seconds before it was first seen,
not at `now + n * 1 * 5 * 60`. -/
theorem C9_counterexample :
    hugeCount ≤ ULONG_MAX ∧
    (HostIP.construct 1700000000 "2001:db8::1".toList hugeCount true).Expire = 1699999700 ∧
    (HostIP.construct 1700000000 "2001:db8::1".toList hugeCount true).Expire ≠
      1700000000 + (hugeCount : Int) * 1 * 5 * 60 := by
  decide

/-! ## Claims on the commit -/

/-- The count of `AddToDeny` calls for `a` when the insert of `a` is made with the local
`Host` equal to the remembered address, as a failure line leaves them. -/
theorem commit_count_after_insert (a : List Char) (st0 : ReadState) (now1 : Int) (r1 : Nat)
    (rest : List (Int × Nat))
    (hLast : st0.LastAddress = a) (hHost : st0.Host = a)
    (hun : ∀ x ∈ st0.Hosts, x.Address ≠ a)
    (hr1 : 0 < r1 ∧ r1 < 5) (_hpos : ∀ ev ∈ rest, 0 < ev.2)
    (hsum : r1 + (rest.map Prod.snd).sum ≤ ULONG_MAX) :
    ∀ i ≤ rest.length,
      (ReadLine_updates ((now1, r1) :: rest.take i) st0).Denied.count a =
        st0.Denied.count a +
          (if 5 ≤ r1 + ((rest.take i).map Prod.snd).sum then 1 else 0) := by
  intro i _
  have hins : UpdateHost a st0.Hosts r1 =
      { InsertRequired := true, Hosts := st0.Hosts, Denied := [] } := by
    have := UpdateHost_append a st0.Hosts [] r1 hun
    simpa [UpdateHost] using this
  have hnot : ¬ r1 ≥ MaxAttempts := by unfold MaxAttempts; omega
  have hupd : ReadLine_update now1 r1 st0 =
      { st0 with Hosts := sortHosts (st0.Hosts ++
          [HostIP.construct now1 a r1 (decide (r1 ≥ MaxAttempts))]) } := by
    unfold ReadLine_update
    simp only [hLast, hins, hHost, hnot, if_true, if_false, List.append_nil]
  have hfil : st0.Hosts.filter (fun x => decide (x.Address = a)) = [] := by
    rw [List.filter_eq_nil_iff]
    intro x hx
    simpa using hun x hx
  have hnew : (HostIP.construct now1 a r1 (decide (r1 ≥ MaxAttempts))).Address = a := rfl
  have hmap : (List.map Prod.snd (rest.take i)) = (rest.map Prod.snd).take i := by
    rw [List.map_take]
  have hle : ((rest.take i).map Prod.snd).sum ≤ (rest.map Prod.snd).sum := by
    rw [hmap]
    exact sum_take_le _ i
  have hmain := updates_commit_count a (rest.take i) (ReadLine_update now1 r1 st0)
    (HostIP.construct now1 a r1 (decide (r1 ≥ MaxAttempts))) (st0.Denied.count a)
    (by rw [hupd]; exact hLast)
    (by
      rw [hupd]
      apply filter_sortHosts_eq_singleton
      rw [List.filter_append, hfil]
      simp [List.filter_cons, hnew])
    (by
      have h5 : ¬ 5 ≤ r1 := by omega
      show false = decide (5 ≤ r1)
      simp [h5])
    (by
      have h5 : ¬ 5 ≤ r1 := by omega
      rw [hupd]
      show List.count a st0.Denied = List.count a st0.Denied + (if 5 ≤ r1 then 1 else 0)
      simp [h5])
    (by
      show r1 + _ ≤ ULONG_MAX
      omega)
  simp only [ReadLine_updates]
  exact hmain

/-- C10 (amended): let a failure line for the address `a`, with repeat count r1 < 5, be read
while `a` is untracked, so that r1 goes through the insert path of `ReadLine`, let the
positive counts that follow go through `UpdateHost`, with no eviction in between, and let
the total fit `long unsigned int`. Then after every prefix of the run the number of
`AddToDeny` calls made for `a` is 0 while the counts add up to less than 5 and exactly 1
once they add up to 5 or more. -/
theorem C10_one_commit_per_window (withIPv4 : Bool) (Line : List Char)
    (Address AddressLength r1 : Nat) (st0 : ReadState) (now1 : Int)
    (rest : List (Int × Nat))
    (hv : IsValidLine withIPv4 Line = some (Address, AddressLength, r1))
    (hun : ∀ x ∈ st0.Hosts, x.Address ≠ addressText Line Address AddressLength)
    (hr1 : 0 < r1 ∧ r1 < 5) (hpos : ∀ ev ∈ rest, 0 < ev.2)
    (hsum : r1 + (rest.map Prod.snd).sum ≤ ULONG_MAX) :
    ∀ i ≤ rest.length,
      (ReadLine_updates (rest.take i)
        (ReadLine_step withIPv4 now1 Line st0)).Denied.count
          (addressText Line Address AddressLength) =
        st0.Denied.count (addressText Line Address AddressLength) +
          (if 5 ≤ r1 + ((rest.take i).map Prod.snd).sum then 1 else 0) := by
  intro i hi
  have hstep : ReadLine_step withIPv4 now1 Line st0 =
      ReadLine_update now1 r1
        { st0 with Host := addressText Line Address AddressLength,
                   LastAddress := addressText Line Address AddressLength } := by
    unfold ReadLine_step
    simp only [hv]
  rw [hstep]
  exact commit_count_after_insert (addressText Line Address AddressLength)
    { st0 with Host := addressText Line Address AddressLength,
               LastAddress := addressText Line Address AddressLength }
    now1 r1 rest rfl rfl hun hr1 hpos hsum i hi

/-- Witness of C10: the failure line of "2001:db8::1" is read while only `otherEntry` is
tracked, and the counts 1, 3, 2 follow: no `AddToDeny` call after the first of them, exactly
one after the second and after the third. -/
theorem C10_one_commit_per_window_witness :
    addressText failedLine 55 11 = "2001:db8::1".toList ∧
    (ReadLine_updates [(1700000001, 1)]
      (ReadLine_step false 1700000000 failedLine otherOnlyState)).Denied.count
        (addressText failedLine 55 11) = 0 ∧
    (ReadLine_updates [(1700000001, 1), (1700000002, 3)]
      (ReadLine_step false 1700000000 failedLine otherOnlyState)).Denied.count
        (addressText failedLine 55 11) = 1 ∧
    (ReadLine_updates [(1700000001, 1), (1700000002, 3), (1700000003, 2)]
      (ReadLine_step false 1700000000 failedLine otherOnlyState)).Denied.count
        (addressText failedLine 55 11) = 1 :=
  ⟨by decide,
   C10_one_commit_per_window false failedLine 55 11 1 otherOnlyState 1700000000
      [(1700000001, 1), (1700000002, 3), (1700000003, 2)]
      (by decide) (by decide) (by decide) (by decide) (by decide) 1 (by decide),
   C10_one_commit_per_window false failedLine 55 11 1 otherOnlyState 1700000000
      [(1700000001, 1), (1700000002, 3), (1700000003, 2)]
      (by decide) (by decide) (by decide) (by decide) (by decide) 2 (by decide),
   C10_one_commit_per_window false failedLine 55 11 1 otherOnlyState 1700000000
      [(1700000001, 1), (1700000002, 3), (1700000003, 2)]
      (by decide) (by decide) (by decide) (by decide) (by decide) 3 (by decide)⟩

/-- C10 as stated fails in two ways. When the counts do not fit: after the failure line of
"2001:db8::1" (count 1, insert path) and a continuation line with the count `ULONG_MAX`
(through `UpdateHost`) the total is at least 5, yet no `AddToDeny` call has been made for
the host, whose entry is left with 0 attempts. When the insert is made from a continuation
line: after the host was purged, continuation lines with the counts 3, 6 and 6 read in a
new invocation give two `AddToDeny` calls for the host, because the entry that is inserted
does not carry its address and every later `UpdateHost` asks for an insert again. -/
theorem C10_counterexample :
    (∀ x ∈ otherOnlyState.Hosts, x.Address ≠ "2001:db8::1".toList) ∧
    5 ≤ 1 + hugeCount ∧
    (ReadLine_step false 1700000001 hugeContinuationLine
      (ReadLine_step false 1700000000 failedLine otherOnlyState)).Denied.count
        "2001:db8::1".toList = 0 ∧
    ((ReadLine_step false 1700000001 hugeContinuationLine
      (ReadLine_step false 1700000000 failedLine otherOnlyState)).Hosts.filter
        (fun x => decide (x.Address = "2001:db8::1".toList))).map
          (fun x => x.Attempts) = [0] ∧
    (ReadLine_updates [(1700000000, 1), (1700000001, hugeCount)]
      untrackedState).Denied.count "2001:db8::1".toList = 0 ∧
    (∀ x ∈ afterPurgeState.Hosts, x.Address ≠ "2001:db8::1".toList) ∧
    afterPurgeState.LastAddress = "2001:db8::1".toList ∧
    IsLastRepeated lastRepeatedLine = 3 ∧ IsLastRepeated sixContinuationLine = 6 ∧
    (ReadLine_step false 1700000402 sixContinuationLine
      (ReadLine_step false 1700000401 sixContinuationLine
        (ReadLine_step false 1700000400 lastRepeatedLine afterPurgeState))).Denied.count
          "2001:db8::1".toList = 2 ∧
    (ReadLine_updates [(1700000400, 3), (1700000401, 6), (1700000402, 6)]
      afterPurgeState).Denied.count "2001:db8::1".toList = 2 := by
  decide

/-! ## Claims on the event loop -/

/-- C11: on a registry sorted by `Expire` in non-increasing order, the purge loop run at a
fixed time `now` leaves exactly the entries with `Expire > now`, in their order: no entry
left has `Expire ≤ now` and every entry with `Expire > now` is still there. -/
theorem C11_eviction (now : Int) (Hosts : List HostIP)
    (hs : Hosts.Pairwise (fun a b => b.Expire ≤ a.Expire)) :
    purge (fun _ => now) Hosts = Hosts.filter (fun h => decide (h.Expire > now)) ∧
    (∀ h ∈ purge (fun _ => now) Hosts, ¬ h.Expire ≤ now) ∧
    (∀ h ∈ Hosts, h.Expire > now → h ∈ purge (fun _ => now) Hosts) := by
  have heq : purge (fun _ => now) Hosts = Hosts.filter (fun h => decide (h.Expire > now)) := by
    unfold purge
    rw [purgeBack_const, dropWhile_eq_filter_of_ascending now Hosts.reverse
      (List.pairwise_reverse.mpr hs), List.filter_reverse, List.reverse_reverse]
  refine ⟨heq, ?_, ?_⟩
  · intro h hh
    rw [heq, List.mem_filter] at hh
    have := hh.2
    simp at this
    omega
  · intro h hh hgt
    rw [heq, List.mem_filter]
    exact ⟨hh, by simpa using hgt⟩

/-- Witness of C11: of the two sample entries, sorted, the one that expires at 1699999600
is purged at time 1700000000 and the other one stays. -/
theorem C11_eviction_witness :
    purge (fun _ => 1700000000) [sampleEntry, otherEntry] = [sampleEntry] :=
  (C11_eviction 1700000000 [sampleEntry, otherEntry] (by decide)).1.trans (by decide)

/-- C12: after any sequence of entries into `ReadLine`, per-line steps and purge loops,
started from the empty registry, the registry is sorted by `Expire` in non-increasing
order, and when it is not empty `Hosts.back()` is one of its entries and no entry expires
before it. -/
theorem C12_registry_sorted (withIPv4 : Bool) (evs : List LoopEvent) :
    (loopRun withIPv4 evs emptyState).Hosts.Pairwise (fun a b => b.Expire ≤ a.Expire) ∧
    ∀ back : HostIP, (loopRun withIPv4 evs emptyState).Hosts.getLast? = some back →
      back ∈ (loopRun withIPv4 evs emptyState).Hosts ∧
      ∀ h ∈ (loopRun withIPv4 evs emptyState).Hosts, back.Expire ≤ h.Expire := by
  have hs := loopRun_sorted withIPv4 evs emptyState List.Pairwise.nil
  refine ⟨hs, ?_⟩
  intro back hb
  exact ⟨List.mem_of_getLast?_eq_some hb, back_le_of_sorted _ back hs hb⟩

/-- Witness of C12: after the failure lines of two hosts, read 100 seconds apart, the entry
of the first host, which expires first, is at the back, behind the entry of the second. -/
theorem C12_registry_sorted_witness :
    (loopRun false twoHostsEvents emptyState).Hosts = [secondEntry, sampleEntry] ∧
    sampleEntry ∈ (loopRun false twoHostsEvents emptyState).Hosts ∧
    sampleEntry.Expire ≤ secondEntry.Expire :=
  ⟨by decide,
   ((C12_registry_sorted false twoHostsEvents).2 sampleEntry (by decide)).1,
   ((C12_registry_sorted false twoHostsEvents).2 sampleEntry (by decide)).2
      secondEntry (by decide)⟩

/-- C13 (code at the failing input): the failure line of a host is read, the host expires and
is purged, and a later invocation of `ReadLine` reads two continuation lines. Each of them
looks up the remembered address, does not find it, and inserts an entry built from the local
`Host`, which is empty in that invocation: the registry ends with two entries whose
`Address` is the empty string. -/
theorem C13_duplicate_addresses :
    (mainRun false [firstTurn] emptyState).Hosts.map (fun h => h.Address) =
      ["2001:db8::1".toList] ∧
    (mainRun false [firstTurn, idleTurn] emptyState).Hosts = [] ∧
    (mainRun false [firstTurn, idleTurn] emptyState).LastAddress = "2001:db8::1".toList ∧
    (mainRun false [firstTurn, idleTurn, continuationTurn] emptyState).Hosts.map
      (fun h => (h.Address, h.Attempts)) = [([], 3), ([], 3)] ∧
    ¬ ((mainRun false [firstTurn, idleTurn, continuationTurn] emptyState).Hosts.map
      (fun h => h.Address)).Nodup := by
  decide

/-- C14 (amended): an entry built by `HostIP` has `Expire ≥ FirstSeen` provided
`now + n * 1 * 5 * 60` fits `time_t`, and `UpdateHost` keeps `Expire ≥ FirstSeen` for every
entry provided the sums `Expire + 60` and `Expire + n * 1 * 60` fit `time_t`. -/
theorem C14_expire_after_first_seen :
    (∀ (now : Int) (a : List Char) (n : Nat) (AlreadyWritten : Bool),
      TIME_MIN ≤ now → now + n * 1 * 5 * 60 ≤ TIME_MAX →
        (HostIP.construct now a n AlreadyWritten).FirstSeen ≤
          (HostIP.construct now a n AlreadyWritten).Expire) ∧
    (∀ (Host : List Char) (Hosts : List HostIP) (n : Nat),
      (∀ h ∈ Hosts, TIME_MIN ≤ h.Expire ∧ h.Expire + 60 ≤ TIME_MAX ∧
        h.Expire + n * 1 * 60 ≤ TIME_MAX) →
      (∀ h ∈ Hosts, h.FirstSeen ≤ h.Expire) →
        ∀ h ∈ (UpdateHost Host Hosts n).Hosts, h.FirstSeen ≤ h.Expire) := by
  constructor
  · intro now a n w h1 h2
    have he : (HostIP.construct now a n w).Expire = now + n * 1 * 5 * 60 :=
      expire_initial h1 h2
    rw [he]
    show now ≤ now + n * 1 * 5 * 60
    omega
  · intro Host Hosts n
    induction Hosts with
    | nil =>
      intro _ _ h hh
      simp [UpdateHost] at hh
    | cons x t ih =>
      intro hfit hinv h hh
      have hx := hfit x (List.mem_cons_self _ _)
      have hxi := hinv x (List.mem_cons_self _ _)
      by_cases hxa : x.Address = Host
      · simp only [UpdateHost, hxa, if_true] at hh
        have h60 : toTime (x.Expire + 60) = x.Expire + 60 :=
          toTime_of_range (by unfold TIME_MIN at *; omega) hx.2.1
        have hpen := expire_add_penalty hx.1 hx.2.2
        split at hh
        · rcases List.mem_cons.mp hh with h1 | h1
          · rw [h1]
            show x.FirstSeen ≤ toTime (x.Expire + 60)
            rw [h60]
            omega
          · exact hinv h (List.mem_cons_of_mem _ h1)
        · rcases List.mem_cons.mp hh with h1 | h1
          · rw [h1]
            show x.FirstSeen ≤
              toTime (wrapUL (toUL x.Expire + wrapUL (wrapUL (n * FailurePenalty) * 60)))
            rw [hpen]
            omega
          · exact hinv h (List.mem_cons_of_mem _ h1)
      · simp only [UpdateHost, hxa, if_false] at hh
        rcases List.mem_cons.mp hh with h1 | h1
        · rw [h1]; exact hxi
        · exact ih (fun y hy => hfit y (List.mem_cons_of_mem _ hy))
            (fun y hy => hinv y (List.mem_cons_of_mem _ hy)) h h1

/-- Witness of C14: the entry built for 3 failures at time 1700000000, and the registry
after one more failure of the host of `sampleEntry`. -/
theorem C14_expire_after_first_seen_witness :
    (HostIP.construct 1700000000 "2001:db8::1".toList 3 false).FirstSeen ≤
      (HostIP.construct 1700000000 "2001:db8::1".toList 3 false).Expire ∧
    (UpdateHost "2001:db8::1".toList [otherEntry, sampleEntry] 1).Hosts =
      [otherEntry, { sampleEntry with Attempts := 2, Expire := 1700000360 }] ∧
    sampleEntry.FirstSeen ≤ ({ sampleEntry with Attempts := 2, Expire := 1700000360 } :
      HostIP).Expire :=
  ⟨C14_expire_after_first_seen.1 1700000000 "2001:db8::1".toList 3 false
      (by decide) (by decide),
   by decide,
   C14_expire_after_first_seen.2 "2001:db8::1".toList [otherEntry, sampleEntry] 1
      (by decide) (by decide)
      { sampleEntry with Attempts := 2, Expire := 1700000360 } (by decide)⟩

/-- C14 as stated fails for a count the classifier can produce: `IsValidLine` reads the
count `ULONG_MAX` from `hugeFoldedLine`, and the entry the per-line step then inserts at
time 1700000000 expires at 1699999700, before it was first seen. -/
theorem C14_counterexample :
    (IsValidLine false hugeFoldedLine).map (fun r => r.2.2) = some hugeCount ∧
    (ReadLine_step false 1700000000 hugeFoldedLine emptyState).Hosts.map
      (fun h => (h.FirstSeen, h.Expire)) = [(1700000000, 1699999700)] ∧
    ¬ ∀ h ∈ (ReadLine_step false 1700000000 hugeFoldedLine emptyState).Hosts,
      h.FirstSeen ≤ h.Expire := by
  decide

/-- C15 (code at the failing input): with one entry that expires at 1700000300 and the time
1700000000, the timeout handed to `poll` is -1787917780, a negative value, whereas 300
seconds remain until the expiry, which are 300000 milliseconds; the code multiplies the
time alone by 1000 and subtracts that from `Expire`. With an empty registry the timeout
is -1. -/
theorem C15_poll_timeout :
    [sampleEntry].getLast? = some sampleEntry ∧ (1700000000 : Int) ≤ sampleEntry.Expire ∧
    (sampleEntry.Expire - 1700000000) * 1000 = 300000 ∧
    pollTimeout [sampleEntry] 1700000000 = -1787917780 ∧
    pollTimeout [sampleEntry] 1700000000 ≠ (sampleEntry.Expire - 1700000000) * 1000 ∧
    pollTimeout [sampleEntry] 1700000000 < 0 ∧
    sampleEntry.Expire - 1700000000 * 1000 = -1698299999700 ∧
    pollTimeout [] 1700000000 = -1 := by
  decide

/-- C16 (code at the failing input): the folded failure line with the count 0 is a failure
event with `Attempts = 0`; read for an untracked host it inserts an entry with 0 attempts,
and read for a host that was inserted with 5 attempts it makes `UpdateHost` call
`AddToDeny`. A continuation line with the count 0 is no event. -/
theorem C16_zero_count_is_applied :
    (IsValidLine false zeroFoldedLine).map (fun r => r.2.2) = some 0 ∧
    (ReadLine_step false 1700000000 zeroFoldedLine emptyState).Hosts =
      [{ FirstSeen := 1700000000, Address := "2001:db8::1".toList, Attempts := 0,
         Expire := 1700000000, Written := false }] ∧
    (ReadLine_step false 1700000000 fiveFoldedLine emptyState).Denied =
      ["2001:db8::1".toList] ∧
    (ReadLine_step false 1700000001 zeroFoldedLine
      (ReadLine_step false 1700000000 fiveFoldedLine emptyState)).Denied =
      ["2001:db8::1".toList, "2001:db8::1".toList] ∧
    (ReadLine_step false 1700000001 zeroFoldedLine
      (ReadLine_step false 1700000000 fiveFoldedLine emptyState)).Hosts ≠
      (ReadLine_step false 1700000000 fiveFoldedLine emptyState).Hosts := by
  decide

/-- C17: the entry `AddToDeny` writes for `Host` is "sshd: [" ++ Host ++ "]" and a newline
in the IPv6-only build and, in the `WITH_IPV4` build, when `Host` contains a ':'; it is
"sshd: " ++ Host and a newline in the `WITH_IPV4` build when `Host` contains no ':'. -/
theorem C17_deny_entry_format (withIPv4 : Bool) (Host : List Char) :
    (withIPv4 = false →
      AddToDeny_entry withIPv4 Host = "sshd: [".toList ++ Host ++ "]".toList ++ [NL]) ∧
    (':' ∈ Host →
      AddToDeny_entry withIPv4 Host = "sshd: [".toList ++ Host ++ "]".toList ++ [NL]) ∧
    (withIPv4 = true → ':' ∉ Host →
      AddToDeny_entry withIPv4 Host = "sshd: ".toList ++ Host ++ [NL]) := by
  refine ⟨?_, ?_, ?_⟩
  · intro hw
    simp [AddToDeny_entry, hw]
  · intro hc
    cases withIPv4 <;> simp [AddToDeny_entry, hc]
  · intro hw hc
    simp [AddToDeny_entry, hw, hc]

/-- Witness of C17: an IPv6 address in both builds and an IPv4 address in the `WITH_IPV4`
build. -/
theorem C17_deny_entry_format_witness :
    AddToDeny_entry false "2001:db8::1".toList = "sshd: [2001:db8::1]".toList ++ [NL] ∧
    AddToDeny_entry true "2001:db8::1".toList = "sshd: [2001:db8::1]".toList ++ [NL] ∧
    AddToDeny_entry true "10.0.0.5".toList = "sshd: 10.0.0.5".toList ++ [NL] :=
  ⟨(C17_deny_entry_format false "2001:db8::1".toList).1 rfl,
   (C17_deny_entry_format true "2001:db8::1".toList).2.1 (by decide),
   (C17_deny_entry_format true "10.0.0.5".toList).2.2 rfl (by decide)⟩

/-! ## Claims on the insert path -/

/-- C18 (amended): when the per-line step of `ReadLine` records a failure event with repeat
count n ≥ 5 for an untracked address a, it makes exactly one `AddToDeny` call, for a, and
the new entry of a has `Written = false`. The next `UpdateHost` for a, on any registry that
still holds that entry unchanged, with a repeat count m such that n + m fits
`long unsigned int`, makes a second `AddToDeny` call for a and sets `Written = true`. -/
theorem C18_insert_path_commits_twice (a : List Char) (st : ReadState) (now : Int)
    (n m : Nat) (Hosts2 : List HostIP)
    (hLast : st.LastAddress = a) (hHost : st.Host = a)
    (hun : ∀ x ∈ st.Hosts, x.Address ≠ a) (hn : 5 ≤ n) (hfit : n + m ≤ ULONG_MAX)
    (h2 : Hosts2.filter (fun x => decide (x.Address = a)) =
      (ReadLine_update now n st).Hosts.filter (fun x => decide (x.Address = a))) :
    (ReadLine_update now n st).Denied = st.Denied ++ [a] ∧
    (∃ e : HostIP,
      (ReadLine_update now n st).Hosts.filter (fun x => decide (x.Address = a)) = [e] ∧
      e.Attempts = n ∧ e.Written = false) ∧
    (UpdateHost a Hosts2 m).Denied = [a] ∧
    (∃ e2 : HostIP,
      (UpdateHost a Hosts2 m).Hosts.filter (fun x => decide (x.Address = a)) = [e2] ∧
      e2.Written = true) := by
  have hins : UpdateHost a st.Hosts n =
      { InsertRequired := true, Hosts := st.Hosts, Denied := [] } := by
    have := UpdateHost_append a st.Hosts [] n hun
    simpa [UpdateHost] using this
  have hge : n ≥ MaxAttempts := hn
  have hupd : ReadLine_update now n st =
      { st with
        Hosts := sortHosts (st.Hosts ++ [HostIP.construct now a n (decide (n ≥ MaxAttempts))])
        Denied := st.Denied ++ [a] } := by
    unfold ReadLine_update
    simp only [hLast, hins, hHost, hge, if_true, List.append_nil]
  have hfil : st.Hosts.filter (fun x => decide (x.Address = a)) = [] := by
    rw [List.filter_eq_nil_iff]
    intro x hx
    simpa using hun x hx
  have hnew : (HostIP.construct now a n (decide (n ≥ MaxAttempts))).Address = a := rfl
  have hsingle : (ReadLine_update now n st).Hosts.filter (fun x => decide (x.Address = a)) =
      [HostIP.construct now a n (decide (n ≥ MaxAttempts))] := by
    rw [hupd]
    apply filter_sortHosts_eq_singleton
    rw [List.filter_append, hfil]
    simp [List.filter_cons, hnew]
  rw [hsingle] at h2
  obtain ⟨_, ⟨e2, hf2, _, hW2⟩, hden⟩ := UpdateHost_of_single a Hosts2
    (HostIP.construct now a n (decide (n ≥ MaxAttempts))) m h2
  have hatt : (HostIP.construct now a n (decide (n ≥ MaxAttempts))).Attempts = n := rfl
  have hwr : (HostIP.construct now a n (decide (n ≥ MaxAttempts))).Written = false := rfl
  have hw : wrapUL (n + m) = n + m := wrapUL_of_le hfit
  rw [hatt, hw] at hden hW2
  have h5 : 5 ≤ n + m := by omega
  refine ⟨by rw [hupd], ⟨_, hsingle, rfl, rfl⟩, ?_, ⟨e2, hf2, ?_⟩⟩
  · rw [hden, hwr]
    simp [h5]
  · rw [hW2]
    simp [h5]

/-- Witness of C18: five failures at once for the untracked host of `untrackedState`, then
one more failure. -/
theorem C18_insert_path_commits_twice_witness :
    (ReadLine_update 1700000000 5 untrackedState).Denied = ["2001:db8::1".toList] ∧
    (UpdateHost "2001:db8::1".toList
      (ReadLine_update 1700000000 5 untrackedState).Hosts 1).Denied =
      ["2001:db8::1".toList] :=
  ⟨(C18_insert_path_commits_twice "2001:db8::1".toList untrackedState 1700000000 5 1
      (ReadLine_update 1700000000 5 untrackedState).Hosts rfl rfl (by decide) (by decide)
      (by decide) rfl).1,
   (C18_insert_path_commits_twice "2001:db8::1".toList untrackedState 1700000000 5 1
      (ReadLine_update 1700000000 5 untrackedState).Hosts rfl rfl (by decide) (by decide)
      (by decide) rfl).2.2.1⟩

/-- C18 as stated fails when the attempts wrap: after the insert with n = 5, the first
`UpdateHost` for the host with the repeat count `ULONG_MAX` makes no `AddToDeny` call and
leaves the entry with 4 attempts and `Written = false`. -/
theorem C18_counterexample :
    (ReadLine_update 1700000000 5 untrackedState).Denied = ["2001:db8::1".toList] ∧
    (UpdateHost "2001:db8::1".toList
      (ReadLine_update 1700000000 5 untrackedState).Hosts hugeCount).Denied = [] ∧
    ((UpdateHost "2001:db8::1".toList
      (ReadLine_update 1700000000 5 untrackedState).Hosts hugeCount).Hosts.filter
        (fun x => decide (x.Address = "2001:db8::1".toList))).map
          (fun x => (x.Attempts, x.Written)) = [(4, false)] := by
  decide

/-! ## Claims on the reading of lines -/

/-- C19 (amended): `ReadLine` applies its per-line step to the buffers `ReadLine_lines`
lists, in order. With nothing to read there is none. A line of fewer than 255 bytes that ends
in a newline is handed over with NUL in place of the newline, and reading goes on after it.
When 255 bytes come without a newline, these 255 bytes are handed over and reading goes on
with the next byte. When the available input ends with a fragment of fewer than 255 bytes
without a newline, the buffer that holds the fragment is handed over as well: a failed
`read` ends the line. -/
theorem C19_lines_handed_to_classifier (withIPv4 : Bool) (time : Nat → Int)
    (st : ReadState) (Line : List Char) (hlen : Line.length = 255) :
    (∀ input : List Char,
      ReadLine withIPv4 time input Line st =
        ReadLine_steps withIPv4 time 0 (ReadLine_lines input Line 0) { st with Host := [] }) ∧
    ReadLine_lines [] Line 0 = [] ∧
    (∀ l rest : List Char, l.length < 255 → NL ∉ l →
      ReadLine_lines (l ++ NL :: rest) Line 0 =
        (l ++ NUL :: Line.drop (l.length + 1)) ::
          ReadLine_lines rest (l ++ NUL :: Line.drop (l.length + 1)) 0 ∧
      (l ++ NUL :: Line.drop (l.length + 1)).length = 255 ∧
      (NUL ∉ l → cstr (l ++ NUL :: Line.drop (l.length + 1)) 0 = l)) ∧
    (∀ l rest : List Char, l.length = 255 → NL ∉ l →
      ReadLine_lines (l ++ rest) Line 0 = l :: ReadLine_lines rest l 0) ∧
    (∀ l : List Char, 0 < l.length → l.length < 255 → NL ∉ l →
      ∃ B : List Char, ReadLine_lines l Line 0 = [B] ∧ B.take l.length = l) := by
  refine ⟨?_, rfl, ?_, ?_, ?_⟩
  · intro input
    exact ReadLine_feed_eq_steps withIPv4 time input Line 0 0 _
  · intro l rest hl hnl
    refine ⟨?_, ?_, cstr_of_terminated l _⟩
    · have h := ReadLine_lines_store l [] Line (NL :: rest) hnl
        (by simpa using (show l.length < LineSize by unfold LineSize; omega)) (by omega)
      simp only [List.nil_append, List.length_nil, Nat.zero_add] at h
      rw [h, List.drop_eq_getElem_cons (by omega : l.length < Line.length)]
      simp only [ReadLine_lines, if_true, set_append_length]
    · simp only [List.length_append, List.length_cons, List.length_drop]
      omega
  · intro l rest hl hnl
    obtain ⟨init, c, rfl⟩ : ∃ init c, l = init ++ [c] := by
      rcases List.eq_nil_or_concat l with h0 | ⟨init, c, h1⟩
      · subst h0; simp at hl
      · exact ⟨init, c, by simpa using h1⟩
    have hinit : init.length = 254 := by
      simp only [List.length_append, List.length_cons, List.length_nil] at hl
      omega
    have hnl1 : NL ∉ init := fun h => hnl (List.mem_append_left _ h)
    have hc : c ≠ NL := fun h => hnl (by simp [h])
    have h := ReadLine_lines_store init [] Line (c :: rest) hnl1
      (by simp only [List.length_nil]; unfold LineSize; omega) (by omega)
    simp only [List.nil_append, List.length_nil, Nat.zero_add] at h
    have hd : Line.drop (init.length + 1) = [] := by
      apply List.drop_eq_nil_of_le
      omega
    rw [List.append_assoc, List.singleton_append, h,
      List.drop_eq_getElem_cons (by omega : init.length < Line.length), hd]
    have hr : ¬ init.length + 1 < LineSize := by unfold LineSize; omega
    simp only [ReadLine_lines, hc, if_false, hr, set_append_length]
  · intro l hpos hl hnl
    have h := ReadLine_lines_store l [] Line [] hnl
      (by simpa using (show l.length < LineSize by unfold LineSize; omega)) (by omega)
    simp only [List.nil_append, List.length_nil, Nat.zero_add, List.append_nil] at h
    refine ⟨l ++ Line.drop l.length, ?_, by simp⟩
    rw [h]
    have : l.length ≠ 0 := by omega
    simp [ReadLine_lines, this]

/-- Witness of C19: the failure line followed by a newline and a continuation line followed
by a newline are handed over as two C strings; the letters "abc" that follow without a
newline are handed over in a third buffer. -/
theorem C19_lines_handed_to_classifier_witness :
    (ReadLine_lines (failedLine ++ NL :: (lastRepeatedLine ++ NL :: "abc".toList))
      blankLine 0).length = 3 ∧
    cstr (failedLine ++ NUL :: blankLine.drop (failedLine.length + 1)) 0 = failedLine ∧
    ∃ B : List Char, ReadLine_lines "abc".toList blankLine 0 = [B] ∧ B.take 3 = "abc".toList :=
  ⟨by decide,
   ((C19_lines_handed_to_classifier false (fun _ => 0) emptyState blankLine rfl).2.2.1
      failedLine (lastRepeatedLine ++ NL :: "abc".toList) (by decide) (by decide)).2.2
      (by decide),
   (C19_lines_handed_to_classifier false (fun _ => 0) emptyState blankLine rfl).2.2.2.2
      "abc".toList (by decide) (by decide) (by decide)⟩

/-- C19 as stated fails: when the available input is the failure line without its newline,
81 bytes, `ReadLine` hands the buffer that holds it to the classifier, and the registry,
empty before, holds the host afterwards. -/
theorem C19_counterexample :
    NL ∉ failedLine ∧ failedLine.length = 81 ∧
    (ReadLine_lines failedLine blankLine 0).map (fun B => cstr B 0) = [failedLine] ∧
    emptyState.Hosts = [] ∧
    (ReadLine false (fun _ => 1700000000) failedLine blankLine emptyState).Hosts =
      [sampleEntry] := by
  decide

/-! ## Claims on the assertions of `UpdateHost` -/

/-- C20: the step of `ReadLine` either ends before the call of `UpdateHost` or calls it
with the address `LastAddress` of the state `ReadLine_call` gives, and that address is not
empty: `soft_assert(!Host.empty())` holds, for every buffer and every prior state. -/
theorem C20_host_assertion_holds (withIPv4 : Bool) (now : Int) (Line : List Char)
    (st : ReadState) :
    (ReadLine_step withIPv4 now Line st =
      match ReadLine_call withIPv4 Line st with
      | none => { st with LastAddress := [] }
      | some (st1, Repeated) => ReadLine_update now Repeated st1) ∧
    ∀ (st1 : ReadState) (Repeated : Nat),
      ReadLine_call withIPv4 Line st = some (st1, Repeated) →
        UpdateHost_assert_host st1.LastAddress = true := by
  refine ⟨ReadLine_step_eq_call withIPv4 now Line st, ?_⟩
  intro st1 Repeated hcall
  have hne : st1.LastAddress ≠ [] := by
    unfold ReadLine_call at hcall
    cases hv : IsValidLine withIPv4 Line with
    | none =>
      rw [hv] at hcall
      by_cases hla : st.LastAddress = []
      · simp [hla] at hcall
      · by_cases h0 : IsLastRepeated Line = 0
        · simp [hla, h0] at hcall
        · simp only [hla, ne_eq, not_false_eq_true, if_true, h0, if_false,
            Option.some.injEq, Prod.mk.injEq] at hcall
          rw [← hcall.1]
          exact hla
    | some r =>
      obtain ⟨A, L, R⟩ := r
      rw [hv] at hcall
      simp only [Option.some.injEq, Prod.mk.injEq] at hcall
      obtain ⟨Begin, hx⟩ := IsValidLine_extract hv
      rw [← hcall.1]
      exact ExtractData_address_ne_nil hx
  cases hl : st1.LastAddress with
  | nil => exact absurd hl hne
  | cons c cs => rfl

/-- Witness of C20: the failure line hands "2001:db8::1" to `UpdateHost`, and the
continuation line hands it the remembered address. -/
theorem C20_host_assertion_holds_witness :
    UpdateHost_assert_host "2001:db8::1".toList = true ∧
    UpdateHost_assert_host sampleState.LastAddress = true :=
  ⟨(C20_host_assertion_holds false 1700000000 failedLine emptyState).2
      { emptyState with Host := "2001:db8::1".toList, LastAddress := "2001:db8::1".toList }
      1 (by decide),
   (C20_host_assertion_holds false 1700000001 lastRepeatedLine sampleState).2
      sampleState 3 (by decide)⟩

/-- The vector after the end of the loop body of `ReadLine` is the vector `UpdateHost`
leaves, with the entry `ReadLine_pushed` at its end when there is one, sorted. -/
theorem ReadLine_update_hosts (now : Int) (Repeated : Nat) (st : ReadState) :
    (ReadLine_update now Repeated st).Hosts =
      sortHosts ((UpdateHost st.LastAddress st.Hosts Repeated).Hosts ++
        (ReadLine_pushed now Repeated st).toList) := by
  unfold ReadLine_update ReadLine_pushed
  by_cases hr : (UpdateHost st.LastAddress st.Hosts Repeated).InsertRequired = true
  · by_cases hm : Repeated ≥ MaxAttempts
    · simp [hr, hm]
    · simp [hr, hm]
  · simp [hr]

/-- After a failure line the entry that `ReadLine` appends, if any, carries the address
handed to `UpdateHost`. -/
theorem ReadLine_pushed_after_failure_line (withIPv4 : Bool) (now : Int) (Line : List Char)
    (st st1 : ReadState) (Repeated : Nat) (e : HostIP)
    (hv : IsValidLine withIPv4 Line ≠ none)
    (hcall : ReadLine_call withIPv4 Line st = some (st1, Repeated))
    (hp : ReadLine_pushed now Repeated st1 = some e) :
    e.Address = st1.LastAddress ∧ e.Address ≠ [] := by
  unfold ReadLine_call at hcall
  cases hv1 : IsValidLine withIPv4 Line with
  | none => exact absurd hv1 hv
  | some r =>
    obtain ⟨A, L, R⟩ := r
    rw [hv1] at hcall
    simp only [Option.some.injEq, Prod.mk.injEq] at hcall
    obtain ⟨Begin, hx⟩ := IsValidLine_extract hv1
    have hne := ExtractData_address_ne_nil hx
    unfold ReadLine_pushed at hp
    split at hp
    · simp only [Option.some.injEq] at hp
      rw [← hp, ← hcall.1]
      exact ⟨rfl, hne⟩
    · cases hp

/-! ## Claims on the insertion -/

/-- C21 (code at the failing input): in the `WITH_IPV4` build the folded failure line of the
specification, read with an empty registry, makes `ReadLine` call `UpdateHost` with the
repeat count 7; `UpdateHost` reports that an insert is required, so the condition of its
last `soft_assert` is false. The same happens with the count 3 of a continuation line read
after the host was purged. -/
theorem C21_insert_assertion_fails :
    (ReadLine_call true repeatedLine emptyState).map (fun r => (r.1.LastAddress, r.2)) =
      some ("10.0.0.5".toList, 7) ∧
    (UpdateHost "10.0.0.5".toList emptyState.Hosts 7).InsertRequired = true ∧
    UpdateHost_assert_insert
      (UpdateHost "10.0.0.5".toList emptyState.Hosts 7).InsertRequired 7 = false ∧
    (ReadLine_step true 1700000000 repeatedLine emptyState).Hosts.map
      (fun h => (h.Address, h.Attempts)) = [("10.0.0.5".toList, 7)] ∧
    (ReadLine_call false lastRepeatedLine afterPurgeState).map
      (fun r => (r.1.LastAddress, r.2)) = some ("2001:db8::1".toList, 3) ∧
    UpdateHost_assert_insert
      (UpdateHost "2001:db8::1".toList afterPurgeState.Hosts 3).InsertRequired 3 = false := by
  decide

/-- C22 (code at the failing input): the failure line of "2001:db8::1" is read, the host
expires and is purged, and the next invocation of `ReadLine` reads a continuation line. The
address handed to `UpdateHost` is the remembered "2001:db8::1", an insert is required, and
the entry that is appended is built from the local `Host`, which is empty: its `Address` is
the empty string, not the address looked up. -/
theorem C22_inserted_entry_has_stale_address :
    (mainRun false [firstTurn, idleTurn] emptyState).Hosts = afterPurgeState.Hosts ∧
    (mainRun false [firstTurn, idleTurn] emptyState).LastAddress =
      afterPurgeState.LastAddress ∧
    (ReadLine_call false lastRepeatedLine afterPurgeState).map
      (fun r => (r.1.LastAddress, r.1.Host, r.2)) = some ("2001:db8::1".toList, [], 3) ∧
    (UpdateHost "2001:db8::1".toList afterPurgeState.Hosts 3).InsertRequired = true ∧
    (ReadLine_pushed 1700000400 3 afterPurgeState).map (fun e => e.Address) = some [] ∧
    (mainRun false [firstTurn, idleTurn, oneContinuationTurn] emptyState).Hosts =
      [{ FirstSeen := 1700000400, Address := [], Attempts := 3, Expire := 1700001300,
         Written := false }] ∧
    (mainRun false [firstTurn, idleTurn, oneContinuationTurn] emptyState).LastAddress =
      "2001:db8::1".toList := by
  decide

end ForbidHosts
